import Mathlib

/-!
Verification of the intent-provider module
`core/providers/intent/intent_ali/intent_ali.py`.

The development shallowly embeds the Python module:

* JSON values (`Json`) model the values produced by `json.loads`; numbers are
  modelled as integers (JSON float literals, and the float-only literals
  `NaN`/`Infinity`, are outside the model — no verified claim involves them).
* `Json.dumps` models `json.dumps(..., ensure_ascii=False)` with the default
  separators; `Json.loads` models `json.loads` (strict mode) on the same
  fragment, with duplicate object keys collapsed last-wins as a Python `dict`
  does.
* Python exceptions are modelled by `PyError`; a function that can raise
  returns `Except PyError _`.
* `time.time()` is modelled by a single natural-number clock reading `now`
  per call; `hashlib.md5(...).hexdigest()` is kept as an abstract parameter
  `md5hex : String → String` — no claim depends on the digest function itself.
* The cache dictionary is an association list in insertion order with the
  Python `dict` assignment/deletion discipline.
-/

/-- Python exception values that the module can raise or catch. -/
inductive PyError where
  | valueError (msg : String)
  | jsonDecodeError (msg : String)
  | typeError (msg : String)
  | keyError (msg : String)
  | attributeError (msg : String)
deriving DecidableEq

/-- JSON values, as produced by `json.loads`.  Numbers are modelled as
integers; see the module comment. -/
inductive Json where
  | null : Json
  | bool (b : Bool) : Json
  | num (n : Int) : Json
  | str (s : String) : Json
  | arr (xs : List Json) : Json
  | obj (kvs : List (String × Json)) : Json

mutual

/-- Structural equality on JSON values, modelling Python `==` on the
corresponding dict/list/scalar values. -/
def Json.beq : Json → Json → Bool
  | .null, .null => true
  | .bool a, .bool b => a == b
  | .num a, .num b => a == b
  | .str a, .str b => a == b
  | .arr a, .arr b => Json.beqList a b
  | .obj a, .obj b => Json.beqMembers a b
  | _, _ => false

def Json.beqList : List Json → List Json → Bool
  | [], [] => true
  | a :: as, b :: bs => Json.beq a b && Json.beqList as bs
  | _, _ => false

def Json.beqMembers : List (String × Json) → List (String × Json) → Bool
  | (ka, va) :: as, (kb, vb) :: bs => ka == kb && Json.beq va vb && Json.beqMembers as bs
  | [], [] => true
  | _, _ => false

end

/-- Lower-case hexadecimal digit for `n < 16`, as used by `json.dumps` when it
emits a `\u00XY` escape. -/
def hexDigitLower (n : Nat) : Char :=
  Char.ofNat (if n < 10 then 48 + n else 87 + n)

/-- Decimal digit character for `n < 10`. -/
def digitOfNat (n : Nat) : Char := Char.ofNat (48 + n)

/-- Fuel-indexed worker for `natChars` (structural recursion, so that the
kernel can evaluate it). -/
def natCharsAux : Nat → Nat → List Char
  | 0, _ => []
  | fuel + 1, n =>
    if n < 10 then [digitOfNat n]
    else natCharsAux fuel (n / 10) ++ [digitOfNat (n % 10)]

/-- Big-endian decimal digits of a natural number (`repr` of a Python int). -/
def natChars (n : Nat) : List Char := natCharsAux (n + 1) n

/-- Decimal rendering of a Python int, as `json.dumps` emits it. -/
def intChars (i : Int) : List Char :=
  if i < 0 then '-' :: natChars i.natAbs else natChars i.natAbs

/-- How `json.dumps(..., ensure_ascii=False)` renders one character of a
string: `"` and `\` and the five short-escape control characters get
two-character escapes, any other control character below `0x20` becomes
`\u00XY`, and every other character is emitted as itself. -/
def escapeChar (c : Char) : List Char :=
  if c = '\\' then ['\\', '\\']
  else if c = '"' then ['\\', '"']
  else if c = '\n' then ['\\', 'n']
  else if c = '\r' then ['\\', 'r']
  else if c = '\t' then ['\\', 't']
  else if c = '\x08' then ['\\', 'b']
  else if c = '\x0c' then ['\\', 'f']
  else if c.toNat < 32 then
    '\\' :: 'u' :: '0' :: '0' :: [hexDigitLower (c.toNat / 16), hexDigitLower (c.toNat % 16)]
  else [c]

/-- Escape every character of a string body. -/
def escapeChars : List Char → List Char
  | [] => []
  | c :: cs => escapeChar c ++ escapeChars cs

/-- The keyword literals of the JSON grammar, as character lists. -/
def litNull : List Char := ['n', 'u', 'l', 'l']

/-- See `litNull`. -/
def litTrue : List Char := ['t', 'r', 'u', 'e']

/-- See `litNull`. -/
def litFalse : List Char := ['f', 'a', 'l', 's', 'e']

mutual

/-- Characters of `json.dumps(v, ensure_ascii=False)` with the default
separators `", "` and `": "`. -/
def dumpChars : Json → List Char
  | .null => litNull
  | .bool b => if b then litTrue else litFalse
  | .num i => intChars i
  | .str s => '"' :: (escapeChars s.data ++ ['"'])
  | .arr [] => ['[', ']']
  | .arr (x :: xs) => '[' :: (dumpChars x ++ dumpList xs ++ [']'])
  | .obj [] => ['\x7b', '\x7d']
  | .obj (kv :: kvs) => '\x7b' :: (dumpMember kv ++ dumpMembers kvs ++ ['\x7d'])

/-- Rendering of the second and later array elements, each preceded by the
separator `", "`. -/
def dumpList : List Json → List Char
  | [] => []
  | x :: xs => ',' :: ' ' :: (dumpChars x ++ dumpList xs)

/-- Rendering of one object member, `"key": value`. -/
def dumpMember : String × Json → List Char
  | (k, v) => '"' :: (escapeChars k.data ++ ('"' :: ':' :: ' ' :: dumpChars v))

/-- Rendering of the second and later object members, each preceded by `", "`. -/
def dumpMembers : List (String × Json) → List Char
  | [] => []
  | kv :: kvs => ',' :: ' ' :: (dumpMember kv ++ dumpMembers kvs)

end

/-- `json.dumps(v, ensure_ascii=False)`. -/
def Json.dumps (v : Json) : String := String.mk (dumpChars v)

/-- The whitespace characters the Python `json` scanner skips. -/
def isJsonWs (c : Char) : Bool :=
  c = ' ' || c = '\t' || c = '\n' || c = '\r'

/-- Skip leading JSON whitespace. -/
def skipWs : List Char → List Char
  | [] => []
  | c :: cs => if isJsonWs c then skipWs cs else c :: cs

/-- Match an exact run of expected characters, returning the remainder. -/
def expectChars : List Char → List Char → Option (List Char)
  | [], s => some s
  | p :: ps, c :: cs => if c = p then expectChars ps cs else none
  | _ :: _, [] => none

/-- Value of a hexadecimal digit character, upper or lower case. -/
def hexVal (c : Char) : Option Nat :=
  if c.isDigit then some (c.toNat - 48)
  else if 97 ≤ c.toNat && c.toNat ≤ 102 then some (c.toNat - 87)
  else if 65 ≤ c.toNat && c.toNat ≤ 70 then some (c.toNat - 55)
  else none

/-- The single-character JSON escapes accepted after a backslash. -/
def unescapeChar (e : Char) : Option Char :=
  if e = '"' then some '"'
  else if e = '\\' then some '\\'
  else if e = '/' then some '/'
  else if e = 'b' then some '\x08'
  else if e = 'f' then some '\x0c'
  else if e = 'n' then some '\n'
  else if e = 'r' then some '\r'
  else if e = 't' then some '\t'
  else none

/-- Parse the body of a JSON string after the opening quote, in strict mode:
unescaped control characters are rejected, `\uXXXX` escapes are decoded
(an escape that does not name a unicode scalar value is rejected). -/
def parseStringBody : List Char → Except String (List Char × List Char)
  | [] => .error "Unterminated string"
  | '"' :: cs => .ok ([], cs)
  | '\\' :: 'u' :: a :: b :: c2 :: d :: cs2 =>
    (match hexVal a, hexVal b, hexVal c2, hexVal d with
      | some ha, some hb, some hc, some hd =>
        if (4096 * ha + 256 * hb + 16 * hc + hd).isValidChar then
          match parseStringBody cs2 with
          | .ok (body, r) => .ok (Char.ofNat (4096 * ha + 256 * hb + 16 * hc + hd) :: body, r)
          | .error e2 => .error e2
        else .error "Invalid uXXXX escape"
      | _, _, _, _ => .error "Invalid uXXXX escape")
  | '\\' :: e :: cs1 =>
    if e = 'u' then .error "Invalid uXXXX escape"
    else
      match unescapeChar e with
      | some u =>
        match parseStringBody cs1 with
        | .ok (body, r) => .ok (u :: body, r)
        | .error e2 => .error e2
      | none => .error "Invalid escape"
  | ['\\'] => .error "Unterminated string"
  | c :: cs =>
    if c.toNat < 32 then .error "Invalid control character"
    else
      match parseStringBody cs with
      | .ok (body, r) => .ok (c :: body, r)
      | .error e2 => .error e2

/-- Consume a maximal run of decimal digits, accumulating their value. -/
def parseDigits : Nat → List Char → Nat × List Char
  | acc, [] => (acc, [])
  | acc, c :: cs =>
    if c.isDigit then parseDigits (acc * 10 + (c.toNat - 48)) cs
    else (acc, c :: cs)

/-- Parse the integer part of a JSON number: `0`, or a nonzero digit followed
by further digits (the JSON grammar forbids leading zeros). -/
def parseUInt : List Char → Except String (Nat × List Char)
  | [] => .error "Expecting value"
  | c :: cs =>
    if c = '0' then .ok (0, cs)
    else if c.isDigit then .ok (parseDigits (c.toNat - 48) cs)
    else .error "Expecting value"

/-- A fraction or exponent marker follows: the number is a float literal,
which is outside this model (see the module comment). -/
def floatFollows : List Char → Bool
  | [] => false
  | c :: _ => c = '.' || c = 'e' || c = 'E'

/-- Parse a JSON number (integer literals only; see the module comment). -/
def parseNumber (s : List Char) : Except String (Json × List Char) :=
  match s with
  | [] => .error "Expecting value"
  | c :: cs =>
    if c = '-' then
      match parseUInt cs with
      | .error e => .error e
      | .ok (m, r) =>
        if floatFollows r then .error "Float literals are outside the model"
        else .ok (.num (-(m : Int)), r)
    else
      match parseUInt (c :: cs) with
      | .error e => .error e
      | .ok (m, r) =>
        if floatFollows r then .error "Float literals are outside the model"
        else .ok (.num (m : Int), r)

/-- Python `dict` assignment `d[k] = v` on an association list: update the
existing binding in place if the key is present, else append. -/
def objInsert (kvs : List (String × Json)) (k : String) (v : Json) :
    List (String × Json) :=
  if kvs.any (fun kv => kv.1 == k) then
    kvs.map (fun kv => if kv.1 == k then (k, v) else kv)
  else kvs ++ [(k, v)]

mutual

/-- Parse one JSON value, fuel-indexed (the fuel falls by one on every
recursive call into a subvalue). -/
def parseValue : Nat → List Char → Except String (Json × List Char)
  | 0, _ => .error "Fuel exhausted"
  | fuel + 1, s =>
    match skipWs s with
    | [] => .error "Expecting value"
    | c :: cs =>
      if c = 'n' then
        match expectChars ['u', 'l', 'l'] cs with
        | some r => .ok (.null, r)
        | none => .error "Expecting value"
      else if c = 't' then
        match expectChars ['r', 'u', 'e'] cs with
        | some r => .ok (.bool true, r)
        | none => .error "Expecting value"
      else if c = 'f' then
        match expectChars ['a', 'l', 's', 'e'] cs with
        | some r => .ok (.bool false, r)
        | none => .error "Expecting value"
      else if c = '"' then
        match parseStringBody cs with
        | .ok (body, r) => .ok (.str (String.mk body), r)
        | .error e => .error e
      else if c = '[' then
        match skipWs cs with
        | [] => .error "Expecting value"
        | c1 :: cs1 =>
          if c1 = ']' then .ok (.arr [], cs1)
          else
            match parseValue fuel (c1 :: cs1) with
            | .error e => .error e
            | .ok (v, r) =>
              match parseArrayRest fuel r with
              | .error e => .error e
              | .ok (vs, r2) => .ok (.arr (v :: vs), r2)
      else if c = '\x7b' then
        match skipWs cs with
        | [] => .error "Expecting property name enclosed in double quotes"
        | c1 :: cs1 =>
          if c1 = '\x7d' then .ok (.obj [], cs1)
          else if c1 = '"' then
            match parseStringBody cs1 with
            | .error e => .error e
            | .ok (key, r1) =>
              match skipWs r1 with
              | [] => .error "Expecting colon delimiter"
              | c2 :: r2 =>
                if c2 = ':' then
                  match parseValue fuel r2 with
                  | .error e => .error e
                  | .ok (v, r3) =>
                    match parseMembersRest fuel (objInsert [] (String.mk key) v) r3 with
                    | .error e => .error e
                    | .ok (kvs, r4) => .ok (.obj kvs, r4)
                else .error "Expecting colon delimiter"
          else .error "Expecting property name enclosed in double quotes"
      else if c = '-' || c.isDigit then parseNumber (c :: cs)
      else .error "Expecting value"

/-- After the first array element: a `,`-separated tail, closed by `]`. -/
def parseArrayRest : Nat → List Char → Except String (List Json × List Char)
  | 0, _ => .error "Fuel exhausted"
  | fuel + 1, s =>
    match skipWs s with
    | [] => .error "Expecting comma delimiter"
    | c :: cs =>
      if c = ']' then .ok ([], cs)
      else if c = ',' then
        match parseValue fuel cs with
        | .error e => .error e
        | .ok (v, r) =>
          match parseArrayRest fuel r with
          | .error e => .error e
          | .ok (vs, r2) => .ok (v :: vs, r2)
      else .error "Expecting comma delimiter"

/-- After the first object member: a `,`-separated tail of `"key": value`
members accumulated into a Python dict (`objInsert`), closed by the brace. -/
def parseMembersRest : Nat → List (String × Json) → List Char →
    Except String (List (String × Json) × List Char)
  | 0, _, _ => .error "Fuel exhausted"
  | fuel + 1, acc, s =>
    match skipWs s with
    | [] => .error "Expecting comma delimiter"
    | c :: cs =>
      if c = '\x7d' then .ok (acc, cs)
      else if c = ',' then
        match skipWs cs with
        | [] => .error "Expecting property name enclosed in double quotes"
        | c1 :: cs1 =>
          if c1 = '"' then
            match parseStringBody cs1 with
            | .error e => .error e
            | .ok (key, r1) =>
              match skipWs r1 with
              | [] => .error "Expecting colon delimiter"
              | c2 :: r2 =>
                if c2 = ':' then
                  match parseValue fuel r2 with
                  | .error e => .error e
                  | .ok (v, r3) => parseMembersRest fuel (objInsert acc (String.mk key) v) r3
                else .error "Expecting colon delimiter"
          else .error "Expecting property name enclosed in double quotes"
      else .error "Expecting comma delimiter"

end

/-- `json.loads` on a character list: parse one value, then require only
whitespace to remain.  The fuel `length + 1` is enough for any parse (proved
for serializer output below). -/
def loadsChars (s : List Char) : Except String Json :=
  match parseValue (s.length + 1) s with
  | .error e => .error e
  | .ok (v, rest) =>
    match skipWs rest with
    | [] => .ok v
    | _ => .error "Extra data"

/-- `json.loads` on a Python string. -/
def Json.loads (s : String) : Except String Json := loadsChars s.data

/-- Does `p` occur at the start of `s`? -/
def charsStartWith : List Char → List Char → Bool
  | [], _ => true
  | _ :: _, [] => false
  | p :: ps, c :: cs => p == c && charsStartWith ps cs

/-- Index of the first occurrence of `pat` in `s`, if any (Python
`str.find` / the scan a regex engine performs for a literal). -/
def findSub (pat : List Char) : List Char → Option Nat
  | [] => if charsStartWith pat [] then some 0 else none
  | c :: rest =>
    if charsStartWith pat (c :: rest) then some 0
    else
      match findSub pat rest with
      | some i => some (i + 1)
      | none => none

/-- The first match of the regex `open(.*?)close` with `re.DOTALL`, as
`re.search` finds it: the content between the first occurrence of the opening
tag and the earliest occurrence of the closing tag after it. -/
def extractTagged (openT closeT s : List Char) : Option (List Char) :=
  match findSub openT s with
  | none => none
  | some i =>
    let after := s.drop (i + openT.length)
    match findSub closeT after with
    | none => none
    | some j => some (after.take j)

/-- `match.group(1) if match else ""` for one tagged region. -/
def tagGroup (openT closeT : List Char) (text : List Char) : List Char :=
  match extractTagged openT closeT text with
  | some g => g
  | none => []

/-- The whitespace characters stripped by Python `str.strip()` (restricted to
the ASCII whitespace characters; no claim involves the wider Unicode set). -/
def pyIsSpace (c : Char) : Bool :=
  c = ' ' || c = '\t' || c = '\n' || c = '\r' || c = '\x0b' || c = '\x0c'

/-- Drop leading Python whitespace. -/
def dropSpace : List Char → List Char
  | [] => []
  | c :: cs => if pyIsSpace c then dropSpace cs else c :: cs

/-- Python `str.strip()`. -/
def pyStrip (s : List Char) : List Char :=
  (dropSpace (dropSpace s.reverse).reverse)

/-- Python `len(...)` on a parsed JSON value: defined for lists, dicts and
strings, a `TypeError` otherwise. -/
def pyLen : Json → Except PyError Nat
  | .arr xs => .ok xs.length
  | .obj kvs => .ok kvs.length
  | .str s => .ok s.length
  | _ => .error (.typeError "object has no len")

/-- Python `x[0]` on a parsed JSON value known to have nonzero `len`:
first element of a list, one-character string for a string, `KeyError` for a
dict (its keys are strings, not `0`). -/
def pyIndexZero : Json → Except PyError Json
  | .arr [] => .error (.keyError "IndexError: list index out of range")
  | .arr (x :: _) => .ok x
  | .str s =>
    match s.data with
    | [] => .error (.keyError "IndexError: string index out of range")
    | c :: _ => .ok (.str (String.mk [c]))
  | .obj _ => .error (.keyError "0")
  | _ => .error (.typeError "object is not subscriptable")

/-- The literal characters of the three tag patterns used by `parse_text`. -/
def tagsOpen : List Char := "<tags>".data
def tagsClose : List Char := "</tags>".data
def toolCallOpen : List Char := "<tool_call>".data
def toolCallClose : List Char := "</tool_call>".data
def contentOpen : List Char := "<content>".data
def contentClose : List Char := "</content>".data

/-- `IntentProvider.parse_text`: extract the `<tags>`, `<tool_call>` and
`<content>` regions (empty string when a region is missing), `json.loads` the
tool-call segment, and build the result dict — without a `function_call`
field when the segment has zero length, and with `function_call = tools[0]`
otherwise. -/
def parse_text (text : String) : Except PyError Json :=
  let tags := pyStrip (tagGroup tagsOpen tagsClose text.data)
  let tool_call := pyStrip (tagGroup toolCallOpen toolCallClose text.data)
  let content := pyStrip (tagGroup contentOpen contentClose text.data)
  match loadsChars tool_call with
  | .error e => .error (.jsonDecodeError e)
  | .ok tools =>
    match pyLen tools with
    | .error e => .error e
    | .ok n =>
      if n = 0 then
        .ok (.obj [("tags", .str (String.mk tags)), ("content", .str (String.mk content))])
      else
        match pyIndexZero tools with
        | .error e => .error e
        | .ok t0 =>
          .ok (.obj [("tags", .str (String.mk tags)), ("function_call", t0),
                     ("content", .str (String.mk content))])

/-- `self.cache_expiry` (seconds). -/
def cache_expiry : Nat := 600

/-- `self.cache_max_size`. -/
def cache_max_size : Nat := 100

/-- One value of the cache dictionary: the serialized intent and the
timestamp stamped when the entry was written. -/
structure CacheEntry where
  intent : String
  timestamp : Nat
deriving DecidableEq

/-- `self.intent_cache`: a Python dict in insertion order. -/
abbrev Cache := List (String × CacheEntry)

/-- Keys of the dictionary are pairwise distinct (a Python `dict`
invariant). -/
def CacheWF (c : Cache) : Prop := (c.map Prod.fst).Nodup

/-- Python `dict` assignment `self.intent_cache[k] = e`: overwrite in place
when the key exists, append otherwise. -/
def cacheSet (c : Cache) (k : String) (e : CacheEntry) : Cache :=
  if c.any (fun kv => kv.1 == k) then
    c.map (fun kv => if kv.1 == k then (k, e) else kv)
  else c ++ [(k, e)]

/-- `IntentProvider.clean_cache`: delete every entry whose age exceeds
`cache_expiry`; then, if more than `cache_max_size` entries remain, delete the
oldest-timestamp entries (Python `sorted` is stable; a stable insertion sort
models it) until `cache_max_size` remain. -/
def clean_cache (now : Nat) (c : Cache) : Cache :=
  let kept := c.filter fun kv => ! decide (now - kv.2.timestamp > cache_expiry)
  if kept.length > cache_max_size then
    let sortedItems := List.insertionSort (fun a b => a.2.timestamp ≤ b.2.timestamp) kept
    let toDelete := (sortedItems.take (sortedItems.length - cache_max_size)).map Prod.fst
    kept.filter fun kv => ! toDelete.contains kv.1
  else kept

/-- The connection object, reduced to what `detect_intent` consumes: the
`x["function"]` schema values obtained from `conn.func_handler.get_functions()`
and the music file names obtained from `initialize_music_handler(conn)` (the
latter are fetched but unused — the prompt line using them is commented out in
the source). -/
structure Conn where
  functions : List Json
  musicFileNames : List String

/-- The system prompt built by `detect_intent` around the serialized tool
schemas. -/
def systemPrompt (toolsString : String) : String :=
  "You are Qwen, created by Alibaba Cloud. You are a helpful assistant. You may call one or more tools to assist with the user query. The tools you can use are as follows:\n        "
    ++ toolsString ++ "\n        Response in INTENT_MODE."

/-- The constant returned when the final `json.loads` fails:
`'LBRACE"intent": "继续聊天"RBRACE'`. -/
def fallbackIntent : String := "\x7b\"intent\": \"继续聊天\"\x7d"

/-- Python `key in v` for a string key against a parsed JSON value:
key membership for a dict, element membership for a list, substring test for a
string, `TypeError` otherwise. -/
def pyContains (v : Json) (key : String) : Except PyError Bool :=
  match v with
  | .obj kvs => .ok (kvs.any (fun kv => kv.1 == key))
  | .arr xs => .ok (xs.any (fun x => Json.beq x (.str key)))
  | .str s => .ok (findSub key.data s.data).isSome
  | _ => .error (.typeError "argument is not iterable")

/-- Python `v[key]` for a string key: dict lookup (`KeyError` when absent),
`TypeError` on any non-dict. -/
def pyGetItem (v : Json) (key : String) : Except PyError Json :=
  match v with
  | .obj kvs =>
    match kvs.find? (fun kv => kv.1 == key) with
    | some kv => .ok kv.2
    | none => .error (.keyError key)
  | .arr _ => .error (.typeError "list indices must be integers")
  | .str _ => .error (.typeError "string indices must be integers")
  | _ => .error (.typeError "object is not subscriptable")

/-- Python `v.get(key[, default])`: defined only on dicts — on any other
value the attribute access raises `AttributeError`.  The looked-up value
itself is only logged by the source, so the model returns `Unit`. -/
def pyDictGet (v : Json) : Except PyError Unit :=
  match v with
  | .obj _ => .ok ()
  | _ => .error (.attributeError "object has no attribute get")

/-- Outcome of one `detect_intent` call: the returned value (or the raised
exception), the cache dictionary after the call, and how many times
`self.llm.response_no_stream` was invoked. -/
structure DetectResult where
  value : Except PyError String
  cache : Cache
  llmCalls : Nat

/-- The tail of `detect_intent` after the final `json.dumps`: the `try` block
around `json.loads(intent)`.  A decode failure is caught and answered with
`fallbackIntent` without touching the cache; on success both branches of the
`function_call` test cache the intent string under the key with the current
time and return it, but the `function_call` branch first evaluates
`function_data.get(...)`, whose exceptions propagate. -/
def finalizeIntent (c : Cache) (cacheKey : String) (now : Nat) (intent : String) :
    Except PyError String × Cache :=
  match Json.loads intent with
  | .error _ => (.ok fallbackIntent, c)
  | .ok intentData =>
    match pyContains intentData "function_call" with
    | .error e => (.error e, c)
    | .ok true =>
      match pyGetItem intentData "function_call" with
      | .error e => (.error e, c)
      | .ok functionData =>
        match pyDictGet functionData with
        | .error e => (.error e, c)
        | .ok _ => (.ok intent, cacheSet c cacheKey ⟨intent, now⟩)
    | .ok false => (.ok intent, cacheSet c cacheKey ⟨intent, now⟩)

/-- The cache-miss path of `detect_intent`: clean the cache, build the system
prompt around the serialized tool schemas, call the LLM, strip and parse its
reply (`parse_text` exceptions propagate — the call is outside the `try`),
serialize the parsed dict and finish with `finalizeIntent`. -/
def detectMiss (md5hex : String → String) (now : Nat) (llmf : String → String → String)
    (conn : Conn) (c : Cache) (text : String) : DetectResult :=
  let cacheKey := md5hex text
  let c1 := clean_cache now c
  let toolsString := Json.dumps (.arr conn.functions)
  let intentRaw := llmf (systemPrompt toolsString) text
  match parse_text (String.mk (pyStrip intentRaw.data)) with
  | .error e => ⟨.error e, c1, 1⟩
  | .ok parsed =>
    let intent := Json.dumps parsed
    let rc := finalizeIntent c1 cacheKey now intent
    ⟨rc.1, rc.2, 1⟩

/-- `IntentProvider.detect_intent`.  `llm` is `self.llm`
(`none` models an unset provider, in which case `ValueError` is raised before
anything else); the cache key is `md5hex text`; a cached entry whose age is at
most `cache_expiry` is returned immediately without an LLM call; otherwise the
call proceeds on the miss path.  The unused `dialogue_history` parameter of
the source is omitted. -/
def detect_intent (md5hex : String → String) (now : Nat)
    (llm : Option (String → String → String)) (conn : Conn)
    (c : Cache) (text : String) : DetectResult :=
  match llm with
  | none => ⟨.error (.valueError "LLM provider not set"), c, 0⟩
  | some llmf =>
    let cacheKey := md5hex text
    match c.find? (fun kv => kv.1 == cacheKey) with
    | some kv =>
      if now - kv.2.timestamp ≤ cache_expiry then ⟨.ok kv.2.intent, c, 0⟩
      else detectMiss md5hex now llmf conn c text
    | none => detectMiss md5hex now llmf conn c text

/-! ### Cache lemmas -/

theorem mem_clean_cache {now : Nat} {c : Cache} {kv : String × CacheEntry}
    (h : kv ∈ clean_cache now c) :
    kv ∈ c ∧ now - kv.2.timestamp ≤ cache_expiry := by
  simp only [clean_cache] at h
  split at h
  · rcases List.mem_filter.mp h with ⟨h1, -⟩
    rcases List.mem_filter.mp h1 with ⟨hc, hb⟩
    refine ⟨hc, ?_⟩
    simp only [Bool.not_eq_eq_eq_not, Bool.not_true, decide_eq_false_iff_not, not_lt] at hb
    omega
  · rcases List.mem_filter.mp h with ⟨hc, hb⟩
    refine ⟨hc, ?_⟩
    simp only [Bool.not_eq_eq_eq_not, Bool.not_true, decide_eq_false_iff_not, not_lt] at hb
    omega

theorem pair_eq_of_key_eq {a b : String × CacheEntry} :
    ∀ c : Cache, CacheWF c → a ∈ c → b ∈ c → a.1 = b.1 → a = b := by
  intro c
  induction c with
  | nil => intro _ ha; cases ha
  | cons hd tl ih =>
    intro hwf ha hb hk
    rcases List.nodup_cons.mp hwf with ⟨hhd, htl⟩
    rcases List.mem_cons.mp ha with rfl | ha2 <;> rcases List.mem_cons.mp hb with rfl | hb2
    · rfl
    · exfalso; apply hhd; rw [hk]; exact List.mem_map_of_mem Prod.fst hb2
    · exfalso; apply hhd; rw [← hk]; exact List.mem_map_of_mem Prod.fst ha2
    · exact ih htl ha2 hb2 hk

theorem clean_cache_evict_spec (now : Nat) (c : Cache) (hwf : CacheWF c) :
    (clean_cache now c).length ≤ cache_max_size ∧
    ((c.filter fun kv => ! decide (now - kv.2.timestamp > cache_expiry)).length > cache_max_size →
      (clean_cache now c).length = cache_max_size) ∧
    (∀ kv ∈ c.filter (fun kv => ! decide (now - kv.2.timestamp > cache_expiry)),
      kv ∉ clean_cache now c →
      ∀ kv2 ∈ clean_cache now c, kv.2.timestamp ≤ kv2.2.timestamp) := by
  simp only [clean_cache]
  set kept := c.filter fun kv => ! decide (now - kv.2.timestamp > cache_expiry) with hkeptdef
  by_cases hlen : kept.length > cache_max_size
  · rw [if_pos hlen]
    set r : (String × CacheEntry) → (String × CacheEntry) → Prop :=
      fun a b => a.2.timestamp ≤ b.2.timestamp with hrdef
    haveI : IsTotal (String × CacheEntry) r := ⟨fun a b => Nat.le_total _ _⟩
    haveI : IsTrans (String × CacheEntry) r := ⟨fun _ _ _ hab hbc => le_trans hab hbc⟩
    set s := List.insertionSort r kept with hsdef
    set m := s.length - cache_max_size with hmdef
    set D := (s.take m).map Prod.fst with hDdef
    set P : (String × CacheEntry) → Bool := fun kv => ! D.contains kv.1 with hPdef
    have hperm : s.Perm kept := List.perm_insertionSort r kept
    have hkeptnd : (kept.map Prod.fst).Nodup :=
      hwf.sublist ((List.filter_sublist c).map Prod.fst)
    have hsnd : (s.map Prod.fst).Nodup := ((hperm.map Prod.fst).nodup_iff).mpr hkeptnd
    have hsplit : s.take m ++ s.drop m = s := List.take_append_drop m s
    have hdisj : (List.map Prod.fst (s.take m)).Disjoint (List.map Prod.fst (s.drop m)) := by
      have h2 := hsnd
      rw [← hsplit, List.map_append] at h2
      exact (List.nodup_append.mp h2).2.2
    have htake : (s.take m).filter P = [] := by
      refine List.filter_eq_nil_iff.mpr (fun kv hkv => ?_)
      have h1 : kv.1 ∈ D := List.mem_map_of_mem Prod.fst hkv
      simp [hPdef, List.elem_iff]
      exact h1
    have hdropfull : (s.drop m).filter P = s.drop m := by
      refine List.filter_eq_self.mpr (fun kv hkv => ?_)
      have h2 : kv.1 ∉ D := fun hin => hdisj hin (List.mem_map_of_mem Prod.fst hkv)
      simp [hPdef, List.elem_iff]
      exact h2
    have hfiltlen : (kept.filter P).length = (s.drop m).length := by
      have hl := (hperm.filter P).length_eq
      rw [← hl]
      conv_lhs => rw [← hsplit]
      rw [List.filter_append, htake, hdropfull, List.nil_append]
    have hslen : s.length = kept.length := hperm.length_eq
    have hdroplen : (s.drop m).length = s.length - m := List.length_drop m s
    refine ⟨?_, fun _ => ?_, ?_⟩
    · omega
    · omega
    · intro kv hkv hnotin kv2 hkv2
      have hPkv : ¬ P kv = true := fun hP => hnotin (List.mem_filter.mpr ⟨hkv, hP⟩)
      have hkvD : kv.1 ∈ D := by
        by_contra hnd
        refine hPkv ?_
        simp [hPdef, List.elem_iff]
        exact hnd
      have hkvs : kv ∈ s := hperm.mem_iff.mpr hkv
      have hkvtake : kv ∈ s.take m := by
        rcases List.mem_append.mp (by rw [hsplit]; exact hkvs) with h | h
        · exact h
        · exact absurd hkvD (fun hin => hdisj hin (List.mem_map_of_mem Prod.fst h))
      have hkv2kept : kv2 ∈ kept := (List.mem_filter.mp hkv2).1
      have hkv2P : P kv2 = true := (List.mem_filter.mp hkv2).2
      have hkv2s : kv2 ∈ s := hperm.mem_iff.mpr hkv2kept
      have hkv2drop : kv2 ∈ s.drop m := by
        rcases List.mem_append.mp (by rw [hsplit]; exact hkv2s) with h | h
        · exfalso
          have h1 : kv2.1 ∈ D := List.mem_map_of_mem Prod.fst h
          simp [hPdef, List.elem_iff] at hkv2P
          exact hkv2P h1
        · exact h
      have hsorted : List.Sorted r s := List.sorted_insertionSort r kept
      have hpw := hsorted
      rw [List.Sorted, ← hsplit, List.pairwise_append] at hpw
      exact hpw.2.2 kv hkvtake kv2 hkv2drop
  · rw [if_neg hlen]
    refine ⟨by omega, fun h => absurd h hlen, ?_⟩
    intro kv hkv hnotin
    exact absurd hkv hnotin

theorem clean_find_none (now : Nat) (c : Cache) (key : String) (hwf : CacheWF c)
    (hmiss : c.find? (fun kv => kv.1 == key) = none ∨
      ∃ kv0, c.find? (fun kv => kv.1 == key) = some kv0 ∧
        now - kv0.2.timestamp > cache_expiry) :
    (clean_cache now c).find? (fun kv => kv.1 == key) = none := by
  refine List.find?_eq_none.mpr (fun x hx hpx => ?_)
  rcases mem_clean_cache hx with ⟨hxc, hage⟩
  rcases hmiss with hnone | ⟨kv0, hfind, hstale⟩
  · exact (List.find?_eq_none.mp hnone x hxc) hpx
  · have hkv0c : kv0 ∈ c := List.mem_of_find?_eq_some hfind
    have hpkv0 := List.find?_some hfind
    have hxeq : x = kv0 := by
      refine pair_eq_of_key_eq c hwf hxc hkv0c ?_
      have h1 : x.1 = key := by simpa using hpx
      have h2 : kv0.1 = key := by simpa using hpkv0
      rw [h1, h2]
    rw [hxeq] at hage
    omega

theorem mem_cacheSet {c : Cache} {k : String} {e : CacheEntry} {kv : String × CacheEntry}
    (h : kv ∈ cacheSet c k e) : kv ∈ c ∨ kv = (k, e) := by
  simp only [cacheSet] at h
  split at h
  · rcases List.mem_map.mp h with ⟨kv0, hkv0, heq⟩
    by_cases hk : kv0.1 == k
    · simp only [hk, if_pos] at heq
      exact Or.inr heq.symm
    · simp only [hk] at heq
      simp only [Bool.false_eq_true, if_false] at heq
      exact Or.inl (heq ▸ hkv0)
  · rcases List.mem_append.mp h with hm | hm
    · exact Or.inl hm
    · exact Or.inr (List.mem_singleton.mp hm)

theorem find?_cacheSet (c : Cache) (k : String) (e : CacheEntry) :
    (cacheSet c k e).find? (fun kv => kv.1 == k) = some (k, e) := by
  induction c with
  | nil => simp [cacheSet]
  | cons hd tl ih =>
    simp only [cacheSet, List.any_cons] at ih ⊢
    by_cases hhd : hd.1 == k
    · simp only [hhd, Bool.true_or, if_pos, List.map_cons, if_pos hhd, List.find?_cons,
        beq_self_eq_true]
    · simp only [hhd, Bool.false_or]
      by_cases htl : tl.any (fun kv => kv.1 == k)
      · simp only [htl, if_pos, List.map_cons, List.find?_cons, hhd]
        simp only [htl, if_pos] at ih
        simpa [hhd] using ih
      · simp only [htl, Bool.false_eq_true, if_false, List.cons_append, List.find?_cons, hhd]
        simp only [htl, Bool.false_eq_true, if_false] at ih
        simpa [hhd] using ih
/-! ### Decimal number lemmas -/

/-- No digit may directly follow (nor a fraction/exponent marker): a rendered
number placed before such a remainder parses back exactly. -/
def numSafe : List Char → Bool
  | [] => true
  | c :: _ => !(c.isDigit || c = '.' || c = 'e' || c = 'E')

theorem digit_char_facts : ∀ d, d < 10 →
    (digitOfNat d).isDigit = true ∧ (digitOfNat d).toNat - 48 = d ∧
    isJsonWs (digitOfNat d) = false ∧ (digitOfNat d ≠ 'n') ∧ (digitOfNat d ≠ 't') ∧
    (digitOfNat d ≠ 'f') ∧ (digitOfNat d ≠ '"') ∧ (digitOfNat d ≠ '[') ∧
    (digitOfNat d ≠ '\x7b') ∧ (digitOfNat d ≠ '-') ∧ (d ≠ 0 → digitOfNat d ≠ '0') := by
  decide

theorem natCharsAux_fuel : ∀ f1 f2 n : Nat, n < f1 → n < f2 →
    natCharsAux f1 n = natCharsAux f2 n := by
  intro f1
  induction f1 with
  | zero => intro f2 n h1; omega
  | succ f1 ih =>
    intro f2 n h1 h2
    cases f2 with
    | zero => omega
    | succ f2 =>
      simp only [natCharsAux]
      by_cases h : n < 10
      · rw [if_pos h, if_pos h]
      · rw [if_neg h, if_neg h]
        have hlt : n / 10 < n := Nat.div_lt_self (by omega) (by omega)
        rw [ih f2 (n / 10) (by omega) (by omega)]

/-- Unfolding equation for `natChars`. -/
theorem natChars_eq (n : Nat) : natChars n =
    if n < 10 then [digitOfNat n] else natChars (n / 10) ++ [digitOfNat (n % 10)] := by
  show natCharsAux (n + 1) n = _
  simp only [natCharsAux]
  by_cases h : n < 10
  · rw [if_pos h, if_pos h]
  · rw [if_neg h, if_neg h]
    have hlt : n / 10 < n := Nat.div_lt_self (by omega) (by omega)
    rw [natCharsAux_fuel n (n / 10 + 1) (n / 10) (by omega) (by omega)]
    rfl

theorem natChars_shape : ∀ n : Nat, ∃ d tail, d < 10 ∧ natChars n = digitOfNat d :: tail := by
  intro n
  induction n using Nat.strong_induction_on with
  | _ n ih =>
    rw [natChars_eq]
    by_cases h : n < 10
    · rw [if_pos h]
      exact ⟨n, [], h, rfl⟩
    · rw [if_neg h]
      rcases ih (n / 10) (Nat.div_lt_self (by omega) (by omega)) with ⟨d, tail, hd, heq⟩
      exact ⟨d, tail ++ [digitOfNat (n % 10)], hd, by rw [heq]; rfl⟩

theorem natChars_head_ne_zero : ∀ n : Nat, n ≠ 0 →
    ∀ c cs, natChars n = c :: cs → c ≠ '0' := by
  intro n
  induction n using Nat.strong_induction_on with
  | _ n ih =>
    intro hn c cs heq
    rw [natChars_eq] at heq
    by_cases h : n < 10
    · rw [if_pos h] at heq
      cases heq
      exact (digit_char_facts n h).2.2.2.2.2.2.2.2.2.2 hn
    · rw [if_neg h] at heq
      rcases natChars_shape (n / 10) with ⟨d, tail, hd, heq2⟩
      rw [heq2] at heq
      cases heq
      exact ih (n / 10) (Nat.div_lt_self (by omega) (by omega)) (by omega) _ tail heq2

theorem parseDigits_cons_digit (acc : Nat) {c : Char} (hc : c.isDigit = true)
    (cs : List Char) :
    parseDigits acc (c :: cs) = parseDigits (acc * 10 + (c.toNat - 48)) cs := by
  simp [parseDigits, hc]

theorem parseDigits_natChars : ∀ n acc rest,
    parseDigits acc (natChars n ++ rest) =
      parseDigits (acc * 10 ^ (natChars n).length + n) rest := by
  intro n
  induction n using Nat.strong_induction_on with
  | _ n ih =>
    intro acc rest
    rw [natChars_eq]
    by_cases h : n < 10
    · rw [if_pos h, List.singleton_append,
        parseDigits_cons_digit acc (digit_char_facts n h).1,
        (digit_char_facts n h).2.1]
      simp
    · rw [if_neg h]
      rw [List.append_assoc, List.singleton_append,
        ih (n / 10) (Nat.div_lt_self (by omega) (by omega))]
      have h10 : (n % 10) < 10 := Nat.mod_lt _ (by omega)
      rw [parseDigits_cons_digit _ (digit_char_facts _ h10).1,
        (digit_char_facts _ h10).2.1]
      congr 1
      simp only [List.length_append, List.length_cons, List.length_nil, Nat.zero_add]
      have hmod : 10 * (n / 10) + n % 10 = n := Nat.div_add_mod n 10
      calc (acc * 10 ^ (natChars (n / 10)).length + n / 10) * 10 + n % 10
          = acc * (10 ^ (natChars (n / 10)).length * 10) + (10 * (n / 10) + n % 10) := by
            ring
        _ = acc * 10 ^ ((natChars (n / 10)).length + 1) + n := by rw [hmod, pow_succ]

theorem parseDigits_stop (acc : Nat) (rest : List Char) (h : numSafe rest = true) :
    parseDigits acc rest = (acc, rest) := by
  cases rest with
  | nil => rfl
  | cons c cs =>
    simp only [numSafe, Bool.not_eq_eq_eq_not, Bool.not_true, Bool.or_eq_false_iff,
      decide_eq_false_iff_not] at h
    simp [parseDigits, h.1.1.1]

theorem parseUInt_natChars (n : Nat) (rest : List Char) (h : numSafe rest = true) :
    parseUInt (natChars n ++ rest) = .ok (n, rest) := by
  by_cases hz : n = 0
  · subst hz
    have h0 : natChars 0 = ['0'] := by rw [natChars_eq]; norm_num; decide
    rw [h0, List.singleton_append]
    simp [parseUInt]
  · rcases natChars_shape n with ⟨d, tail, hd, heq⟩
    have hne : digitOfNat d ≠ '0' := natChars_head_ne_zero n hz _ tail heq
    have key : parseDigits ((digitOfNat d).toNat - 48) (tail ++ rest) = (n, rest) := by
      have h1 := parseDigits_natChars n 0 rest
      rw [heq, List.cons_append,
        parseDigits_cons_digit 0 (digit_char_facts d hd).1] at h1
      simp only [Nat.zero_mul, Nat.zero_add] at h1
      rw [h1, parseDigits_stop n rest h]
    rw [heq, List.cons_append]
    simp only [parseUInt]
    rw [if_neg hne, if_pos (digit_char_facts d hd).1, key]

theorem floatFollows_eq_false (rest : List Char) (h : numSafe rest = true) :
    floatFollows rest = false := by
  cases rest with
  | nil => rfl
  | cons c cs =>
    simp only [numSafe, Bool.not_eq_eq_eq_not, Bool.not_true, Bool.or_eq_false_iff,
      decide_eq_false_iff_not] at h
    simp [floatFollows, h.1.1.2, h.1.2, h.2]

theorem parseNumber_intChars (i : Int) (rest : List Char) (h : numSafe rest = true) :
    parseNumber (intChars i ++ rest) = .ok (.num i, rest) := by
  rw [intChars]
  by_cases hneg : i < 0
  · rw [if_pos hneg, List.cons_append]
    simp only [parseNumber, if_pos]
    rw [parseUInt_natChars i.natAbs rest h]
    simp [floatFollows_eq_false rest h, abs_of_neg hneg, neg_neg]
  · rw [if_neg hneg]
    rcases natChars_shape i.natAbs with ⟨d, tail, hdlt, heq⟩
    rw [heq, List.cons_append]
    simp only [parseNumber]
    rw [if_neg (digit_char_facts d hdlt).2.2.2.2.2.2.2.2.2.1]
    rw [← List.cons_append, ← heq, parseUInt_natChars i.natAbs rest h]
    have hval : ((i.natAbs : Int)) = i := by omega
    simp [floatFollows_eq_false rest h, hval]

/-! ### String escaping roundtrip -/

theorem hexVal_hexDigitLower : ∀ n, n < 16 → hexVal (hexDigitLower n) = some n := by
  decide

theorem parseStringBody_escape : ∀ cs rest,
    parseStringBody (escapeChars cs ++ ('"' :: rest)) = .ok (cs, rest) := by
  intro cs
  induction cs with
  | nil => intro rest; simp [escapeChars, parseStringBody]
  | cons c cs ih =>
    intro rest
    simp only [escapeChars, List.append_assoc]
    by_cases h1 : c = '\\'
    · subst h1; simp [escapeChar, parseStringBody, unescapeChar, ih]
    · by_cases h2 : c = '"'
      · subst h2; simp [escapeChar, parseStringBody, unescapeChar, ih]
      · by_cases h3 : c = '\n'
        · subst h3; simp [escapeChar, parseStringBody, unescapeChar, ih]
        · by_cases h4 : c = '\r'
          · subst h4; simp [escapeChar, parseStringBody, unescapeChar, ih]
          · by_cases h5 : c = '\t'
            · subst h5; simp [escapeChar, parseStringBody, unescapeChar, ih]
            · by_cases h6 : c = '\x08'
              · subst h6; simp [escapeChar, parseStringBody, unescapeChar, ih]
              · by_cases h7 : c = '\x0c'
                · subst h7; simp [escapeChar, parseStringBody, unescapeChar, ih]
                · by_cases h8 : c.toNat < 32
                  · rw [escapeChar, if_neg h1, if_neg h2, if_neg h3, if_neg h4, if_neg h5,
                      if_neg h6, if_neg h7, if_pos h8]
                    have h00 : hexVal '0' = some 0 := rfl
                    simp only [List.cons_append, List.nil_append, parseStringBody, h00,
                      hexVal_hexDigitLower (c.toNat / 16) (by omega),
                      hexVal_hexDigitLower (c.toNat % 16) (by omega)]
                    have hn : 4096 * 0 + 256 * 0 + 16 * (c.toNat / 16) + c.toNat % 16
                        = c.toNat := by omega
                    simp only [hn]
                    have hvalid : c.toNat.isValidChar := Or.inl (by omega)
                    rw [if_pos hvalid]
                    simp only [List.append_eq, List.nil_append]
                    rw [ih, Char.ofNat_toNat]
                  · rw [escapeChar, if_neg h1, if_neg h2, if_neg h3, if_neg h4, if_neg h5,
                      if_neg h6, if_neg h7, if_neg h8]
                    simp only [List.singleton_append, List.cons_append, List.nil_append]
                    rw [parseStringBody.eq_6 c _ (fun h => h2 h)
                      (fun _ _ _ _ _ hc _ => h1 hc) (fun _ _ hc _ => h1 hc)
                      (fun hc _ => h1 hc), if_neg h8, ih]

/-! ### Canonical JSON values and parser fuel bounds -/

/-- Keys of an object member list are pairwise distinct. -/
def keysNodupB : List (String × Json) → Bool
  | [] => true
  | (k, _) :: kvs => !(kvs.any (fun kv => kv.1 == k)) && keysNodupB kvs

mutual

/-- A JSON value is canonical when every object in it has pairwise-distinct
keys — exactly the values representable as Python objects, hence exactly the
values `Json.loads` can produce. -/
def canonV : Json → Bool
  | .null => true
  | .bool _ => true
  | .num _ => true
  | .str _ => true
  | .arr xs => canonL xs
  | .obj kvs => keysNodupB kvs && canonM kvs

def canonL : List Json → Bool
  | [] => true
  | x :: xs => canonV x && canonL xs

def canonM : List (String × Json) → Bool
  | [] => true
  | (_, v) :: kvs => canonV v && canonM kvs

end

mutual

/-- Fuel sufficient for `parseValue` to parse the rendering of a value. -/
def needV : Json → Nat
  | .null => 1
  | .bool _ => 1
  | .num _ => 1
  | .str _ => 1
  | .arr xs => needL xs
  | .obj kvs => needM kvs

/-- Fuel sufficient for `parseArrayRest` on the rendering of a tail list. -/
def needL : List Json → Nat
  | [] => 1
  | x :: xs => max (needV x) (needL xs) + 1

/-- Fuel sufficient for `parseMembersRest` on the rendering of tail members. -/
def needM : List (String × Json) → Nat
  | [] => 1
  | (_, v) :: kvs => max (needV v) (needM kvs) + 1

end

theorem needV_pos : ∀ v : Json, 1 ≤ needV v := by
  intro v
  cases v with
  | arr xs => cases xs <;> simp [needV, needL]
  | obj kvs => cases kvs <;> simp [needV, needM]
  | _ => simp [needV]

theorem needL_pos : ∀ xs : List Json, 1 ≤ needL xs := by
  intro xs; cases xs <;> simp [needL]

theorem needM_pos : ∀ kvs : List (String × Json), 1 ≤ needM kvs := by
  intro kvs
  cases kvs with
  | nil => simp [needM]
  | cons kv kvs => rcases kv with ⟨k, v⟩; simp [needM]

/-! ### Auxiliary parsing lemmas -/

theorem skipWs_cons_of_not_ws {c : Char} (h : isJsonWs c = false) (cs : List Char) :
    skipWs (c :: cs) = c :: cs := by
  simp [skipWs, h]

theorem expectChars_self : ∀ p rest : List Char, expectChars p (p ++ rest) = some rest := by
  intro p
  induction p with
  | nil => intro rest; rfl
  | cons c cs ih => intro rest; simp [expectChars, ih]

theorem digit_char_facts2 : ∀ d, d < 10 →
    (digitOfNat d ≠ ']') ∧ (digitOfNat d ≠ '\x7d') ∧ (digitOfNat d ≠ ',') := by
  decide

/-- The first character of a rendered JSON value is never whitespace and never
one of the structural characters a surrounding parse step dispatches on. -/
theorem dumpChars_head (v : Json) : ∃ c cs, dumpChars v = c :: cs ∧
    isJsonWs c = false ∧ c ≠ ']' ∧ c ≠ '\x7d' ∧ c ≠ ',' := by
  cases v with
  | null => exact ⟨'n', _, rfl, by decide, by decide, by decide, by decide⟩
  | bool b => cases b with
    | true => exact ⟨'t', _, rfl, by decide, by decide, by decide, by decide⟩
    | false => exact ⟨'f', _, rfl, by decide, by decide, by decide, by decide⟩
  | num i =>
    show ∃ c cs, intChars i = c :: cs ∧ _
    rw [intChars]
    by_cases hneg : i < 0
    · rw [if_pos hneg]
      exact ⟨'-', _, rfl, by decide, by decide, by decide, by decide⟩
    · rw [if_neg hneg]
      rcases natChars_shape i.natAbs with ⟨d, tail, hd, heq⟩
      refine ⟨digitOfNat d, tail, heq, (digit_char_facts d hd).2.2.1,
        (digit_char_facts2 d hd).1, (digit_char_facts2 d hd).2.1,
        (digit_char_facts2 d hd).2.2⟩
  | str s => exact ⟨'"', _, rfl, by decide, by decide, by decide, by decide⟩
  | arr xs => cases xs with
    | nil => exact ⟨'[', _, rfl, by decide, by decide, by decide, by decide⟩
    | cons x xs => exact ⟨'[', _, rfl, by decide, by decide, by decide, by decide⟩
  | obj kvs => cases kvs with
    | nil => exact ⟨'\x7b', _, rfl, by decide, by decide, by decide, by decide⟩
    | cons kv kvs => exact ⟨'\x7b', _, rfl, by decide, by decide, by decide, by decide⟩

/-- `skipWs` leaves the rendering of a value (plus anything after) alone. -/
theorem skipWs_dumpChars (v : Json) (rest : List Char) :
    skipWs (dumpChars v ++ rest) = dumpChars v ++ rest := by
  rcases dumpChars_head v with ⟨c, cs, heq, hws, -, -, -⟩
  rw [heq, List.cons_append, skipWs_cons_of_not_ws hws]

theorem objInsert_fresh {acc : List (String × Json)} {k : String}
    (h : acc.any (fun kv => kv.1 == k) = false) (v : Json) :
    objInsert acc k v = acc ++ [(k, v)] := by
  rw [objInsert, h]
  simp

theorem skipWs_cons_of_ws {c : Char} (h : isJsonWs c = true) (l : List Char) :
    skipWs (c :: l) = skipWs l := by
  simp [skipWs, h]

theorem parseValue_cons_ws {c : Char} (h : isJsonWs c = true) (fuel : Nat) (l : List Char) :
    parseValue fuel (c :: l) = parseValue fuel l := by
  cases fuel with
  | zero => rfl
  | succ n => simp only [parseValue, skipWs_cons_of_ws h]

theorem numSafe_dumpList_close (xs : List Json) (rest : List Char) :
    numSafe (dumpList xs ++ (']' :: rest)) = true := by
  cases xs with
  | nil => rfl
  | cons x xs => rfl

theorem numSafe_dumpMembers_close (kvs : List (String × Json)) (rest : List Char) :
    numSafe (dumpMembers kvs ++ ('\x7d' :: rest)) = true := by
  cases kvs with
  | nil => rfl
  | cons kv kvs => rfl

theorem any_key_eq_false_iff (l : List (String × Json)) (k : String) :
    (l.any (fun kv => kv.1 == k)) = false ↔ k ∉ l.map Prod.fst := by
  constructor
  · intro h hmem
    rcases List.mem_map.mp hmem with ⟨kv, hkv, hfst⟩
    have hany : l.any (fun kv => kv.1 == k) = true :=
      List.any_eq_true.mpr ⟨kv, hkv, beq_iff_eq.mpr hfst⟩
    rw [h] at hany
    cases hany
  · intro h
    by_contra hany
    rcases List.any_eq_true.mp (Bool.not_eq_false _ ▸ hany) with ⟨kv, hkv, hbeq⟩
    exact h (List.mem_map.mpr ⟨kv, hkv, by simpa using hbeq⟩)

theorem keysNodupB_iff : ∀ kvs : List (String × Json),
    keysNodupB kvs = true ↔ (kvs.map Prod.fst).Nodup := by
  intro kvs
  induction kvs with
  | nil => simp [keysNodupB]
  | cons kv kvs ih =>
    rcases kv with ⟨k, v⟩
    rw [keysNodupB, List.map_cons, List.nodup_cons, Bool.and_eq_true, Bool.not_eq_eq_eq_not,
      Bool.not_true, ih, any_key_eq_false_iff]

theorem parseValue_num_head (n : Nat) {c : Char} (cs : List Char)
    (hws : isJsonWs c = false) (h1 : c ≠ 'n') (h2 : c ≠ 't') (h3 : c ≠ 'f')
    (h4 : c ≠ '"') (h5 : c ≠ '[') (h6 : c ≠ '\x7b') (h7 : (c = '-' || c.isDigit) = true) :
    parseValue (n + 1) (c :: cs) = parseNumber (c :: cs) := by
  simp only [parseValue, skipWs_cons_of_not_ws hws]
  rw [if_neg h1, if_neg h2, if_neg h3, if_neg h4, if_neg h5, if_neg h6, if_pos h7]


/-- The serializer-parser roundtrip, by induction on parser fuel: parsing the
rendering of a canonical value (with enough fuel, before a remainder that
cannot extend a trailing number) succeeds and returns exactly that value. -/
theorem parse_dump_mutual : ∀ fuel : Nat,
    (∀ (v : Json) (rest : List Char), canonV v = true → needV v ≤ fuel →
      numSafe rest = true →
      parseValue fuel (dumpChars v ++ rest) = .ok (v, rest)) ∧
    (∀ (xs : List Json) (rest : List Char), canonL xs = true → needL xs ≤ fuel →
      parseArrayRest fuel (dumpList xs ++ (']' :: rest)) = .ok (xs, rest)) ∧
    (∀ (kvs acc : List (String × Json)) (rest : List Char), canonM kvs = true →
      ((acc ++ kvs).map Prod.fst).Nodup → needM kvs ≤ fuel →
      parseMembersRest fuel acc (dumpMembers kvs ++ ('\x7d' :: rest)) =
        .ok (acc ++ kvs, rest)) := by
  intro fuel
  induction fuel with
  | zero =>
    refine ⟨fun v _ _ hn _ => absurd hn (by have := needV_pos v; omega),
      fun xs _ _ hn => absurd hn (by have := needL_pos xs; omega),
      fun kvs _ _ _ _ hn => absurd hn (by have := needM_pos kvs; omega)⟩
  | succ n ih =>
    rcases ih with ⟨ihV, ihL, ihM⟩
    refine ⟨?_, ?_, ?_⟩
    · intro v rest hc hn hsafe
      cases v with
      | null =>
        show parseValue (n + 1) (['n', 'u', 'l', 'l'] ++ rest) = _
        simp [parseValue, skipWs, expectChars, isJsonWs]
      | bool b =>
        cases b with
        | true =>
          show parseValue (n + 1) (['t', 'r', 'u', 'e'] ++ rest) = _
          simp [parseValue, skipWs, expectChars, isJsonWs]
        | false =>
          show parseValue (n + 1) (['f', 'a', 'l', 's', 'e'] ++ rest) = _
          simp [parseValue, skipWs, expectChars, isJsonWs]
      | num i =>
        show parseValue (n + 1) (intChars i ++ rest) = _
        have hsplit : ∃ c cs, intChars i = c :: cs ∧ isJsonWs c = false ∧ c ≠ 'n' ∧
            c ≠ 't' ∧ c ≠ 'f' ∧ c ≠ '"' ∧ c ≠ '[' ∧ c ≠ '\x7b' ∧
            (c = '-' || c.isDigit) = true := by
          rw [intChars]
          by_cases hneg : i < 0
          · rw [if_pos hneg]
            exact ⟨'-', _, rfl, by decide, by decide, by decide, by decide, by decide,
              by decide, by decide, by decide⟩
          · rw [if_neg hneg]
            rcases natChars_shape i.natAbs with ⟨d, tail, hd, heq⟩
            refine ⟨digitOfNat d, tail, heq, (digit_char_facts d hd).2.2.1,
              (digit_char_facts d hd).2.2.2.1, (digit_char_facts d hd).2.2.2.2.1,
              (digit_char_facts d hd).2.2.2.2.2.1, (digit_char_facts d hd).2.2.2.2.2.2.1,
              (digit_char_facts d hd).2.2.2.2.2.2.2.1,
              (digit_char_facts d hd).2.2.2.2.2.2.2.2.1, by
                simp [(digit_char_facts d hd).1]⟩
        rcases hsplit with ⟨c, cs, heq, hws, h1, h2, h3, h4, h5, h6, h7⟩
        rw [heq, List.cons_append, parseValue_num_head n _ hws h1 h2 h3 h4 h5 h6 h7,
          ← List.cons_append, ← heq, parseNumber_intChars i rest hsafe]
      | str s =>
        show parseValue (n + 1) (('"' :: (escapeChars s.data ++ ['"'])) ++ rest) = _
        simp only [List.cons_append, List.append_assoc, List.singleton_append,
          List.nil_append]
        simp only [parseValue, skipWs_cons_of_not_ws (by decide : isJsonWs '"' = false)]
        rw [if_neg (by decide : ¬ ('"' = 'n')), if_neg (by decide : ¬ ('"' = 't')),
          if_neg (by decide : ¬ ('"' = 'f')), if_pos trivial]
        rw [parseStringBody_escape s.data rest]
      | arr xs =>
        cases xs with
        | nil =>
          show parseValue (n + 1) (['[', ']'] ++ rest) = _
          simp [parseValue, skipWs, isJsonWs]
        | cons x xs =>
          show parseValue (n + 1) (('[' :: (dumpChars x ++ dumpList xs ++ [']'])) ++ rest)
            = _
          simp only [canonV, canonL, Bool.and_eq_true] at hc
          simp only [needV, needL] at hn
          have hnx : needV x ≤ n := by
            have := Nat.le_max_left (needV x) (needL xs); omega
          have hnxs : needL xs ≤ n := by
            have := Nat.le_max_right (needV x) (needL xs); omega
          simp only [List.cons_append, List.append_assoc, List.singleton_append,
            List.nil_append]
          simp only [parseValue, skipWs_cons_of_not_ws (by decide : isJsonWs '[' = false)]
          rw [if_neg (by decide : ¬ ('[' = 'n')), if_neg (by decide : ¬ ('[' = 't')),
            if_neg (by decide : ¬ ('[' = 'f')), if_neg (by decide : ¬ ('[' = '"')),
            if_pos trivial]
          rcases dumpChars_head x with ⟨c, cs, heqx, hwsx, hne1, hne2, hne3⟩
          rw [heqx, List.cons_append, skipWs_cons_of_not_ws hwsx]
          simp only []
          rw [if_neg hne1, ← List.cons_append, ← heqx,
            ihV x (dumpList xs ++ (']' :: rest)) hc.1 hnx (numSafe_dumpList_close xs rest)]
          simp only []
          rw [ihL xs rest hc.2 hnxs]
      | obj kvs =>
        cases kvs with
        | nil =>
          show parseValue (n + 1) (['\x7b', '\x7d'] ++ rest) = _
          simp [parseValue, skipWs, isJsonWs]
        | cons kv kvs =>
          rcases kv with ⟨k, v0⟩
          show parseValue (n + 1)
            (('\x7b' :: (dumpMember (k, v0) ++ dumpMembers kvs ++ ['\x7d'])) ++ rest) = _
          simp only [canonV, canonM, keysNodupB, Bool.and_eq_true] at hc
          rcases hc with ⟨⟨hfresh, hnodup⟩, hcv0, hckvs⟩
          simp only [needV, needM] at hn
          have hnv0 : needV v0 ≤ n := by
            have := Nat.le_max_left (needV v0) (needM kvs); omega
          have hnkvs : needM kvs ≤ n := by
            have := Nat.le_max_right (needV v0) (needM kvs); omega
          simp only [dumpMember, List.cons_append, List.append_assoc,
            List.singleton_append, List.nil_append]
          simp only [parseValue,
            skipWs_cons_of_not_ws (by decide : isJsonWs '\x7b' = false)]
          rw [if_neg (by decide : ¬ ('\x7b' = 'n')), if_neg (by decide : ¬ ('\x7b' = 't')),
            if_neg (by decide : ¬ ('\x7b' = 'f')), if_neg (by decide : ¬ ('\x7b' = '"')),
            if_neg (by decide : ¬ ('\x7b' = '[')), if_pos trivial]
          rw [skipWs_cons_of_not_ws (by decide : isJsonWs '"' = false)]
          simp only []
          rw [if_neg (by decide : ¬ ('"' = '\x7d')), if_pos trivial]
          rw [parseStringBody_escape k.data
            (':' :: ' ' :: (dumpChars v0 ++ (dumpMembers kvs ++ ('\x7d' :: rest))))]
          simp only []
          rw [skipWs_cons_of_not_ws (by decide : isJsonWs ':' = false)]
          simp only []
          rw [if_pos trivial]
          rw [parseValue_cons_ws (by decide : isJsonWs ' ' = true) n]
          rw [ihV v0 (dumpMembers kvs ++ ('\x7d' :: rest)) hcv0 hnv0
            (numSafe_dumpMembers_close kvs rest)]
          simp only []
          rw [show objInsert [] (String.mk k.data) v0 = [(k, v0)] from rfl]
          have hnodupP : (([(k, v0)] ++ kvs).map Prod.fst).Nodup := by
            rw [List.singleton_append]
            refine (keysNodupB_iff ((k, v0) :: kvs)).mp ?_
            rw [keysNodupB, hfresh, hnodup]
            rfl
          rw [ihM kvs [(k, v0)] rest hckvs hnodupP hnkvs]
          simp only [List.singleton_append]
    · intro xs rest hc hn
      cases xs with
      | nil =>
        show parseArrayRest (n + 1) ([] ++ (']' :: rest)) = _
        simp [parseArrayRest, skipWs, isJsonWs]
      | cons x xs =>
        show parseArrayRest (n + 1)
          ((',' :: ' ' :: (dumpChars x ++ dumpList xs)) ++ (']' :: rest)) = _
        simp only [canonL, Bool.and_eq_true] at hc
        simp only [needL] at hn
        have hnx : needV x ≤ n := by
          have := Nat.le_max_left (needV x) (needL xs); omega
        have hnxs : needL xs ≤ n := by
          have := Nat.le_max_right (needV x) (needL xs); omega
        simp only [List.cons_append, List.append_assoc]
        simp only [parseArrayRest,
          skipWs_cons_of_not_ws (by decide : isJsonWs ',' = false)]
        rw [if_neg (by decide : ¬ (',' = ']')), if_pos trivial]
        rw [parseValue_cons_ws (by decide : isJsonWs ' ' = true) n]
        rw [ihV x (dumpList xs ++ (']' :: rest)) hc.1 hnx (numSafe_dumpList_close xs rest)]
        simp only []
        rw [ihL xs rest hc.2 hnxs]
    · intro kvs acc rest hc hnd hn
      cases kvs with
      | nil =>
        show parseMembersRest (n + 1) acc ([] ++ ('\x7d' :: rest)) = _
        simp [parseMembersRest, skipWs, isJsonWs]
      | cons kv kvs =>
        rcases kv with ⟨k, v0⟩
        show parseMembersRest (n + 1) acc
          ((',' :: ' ' :: (dumpMember (k, v0) ++ dumpMembers kvs)) ++ ('\x7d' :: rest)) = _
        simp only [canonM, Bool.and_eq_true] at hc
        simp only [needM] at hn
        have hnv0 : needV v0 ≤ n := by
          have := Nat.le_max_left (needV v0) (needM kvs); omega
        have hnkvs : needM kvs ≤ n := by
          have := Nat.le_max_right (needV v0) (needM kvs); omega
        simp only [dumpMember, List.cons_append, List.append_assoc]
        simp only [parseMembersRest,
          skipWs_cons_of_not_ws (by decide : isJsonWs ',' = false)]
        rw [if_neg (by decide : ¬ (',' = '\x7d')), if_pos trivial]
        rw [skipWs_cons_of_ws (by decide : isJsonWs ' ' = true),
          skipWs_cons_of_not_ws (by decide : isJsonWs '"' = false)]
        simp only []
        rw [if_pos trivial]
        rw [parseStringBody_escape k.data
          (':' :: ' ' :: (dumpChars v0 ++ (dumpMembers kvs ++ ('\x7d' :: rest))))]
        simp only []
        rw [skipWs_cons_of_not_ws (by decide : isJsonWs ':' = false)]
        simp only []
        rw [if_pos trivial]
        rw [parseValue_cons_ws (by decide : isJsonWs ' ' = true) n]
        rw [ihV v0 (dumpMembers kvs ++ ('\x7d' :: rest)) hc.1 hnv0
          (numSafe_dumpMembers_close kvs rest)]
        simp only []
        have hmk : String.mk k.data = k := rfl
        rw [hmk]
        have hfreshacc : acc.any (fun kv => kv.1 == k) = false := by
          rw [any_key_eq_false_iff]
          intro hmem
          have h2 := hnd
          rw [List.map_append] at h2
          rcases List.nodup_append.mp h2 with ⟨-, -, hdisj⟩
          refine hdisj hmem ?_
          rw [List.map_cons]
          exact List.mem_cons_self _ _
        rw [objInsert_fresh hfreshacc v0]
        have hnd2 : (((acc ++ [(k, v0)]) ++ kvs).map Prod.fst).Nodup := by
          rw [← List.append_cons]
          exact hnd
        rw [ihM kvs (acc ++ [(k, v0)]) rest hc.2 hnd2 hnkvs, ← List.append_cons]

/-! ### Fuel bound: the fuel `loadsChars` uses suffices for serializer output -/

theorem dumpChars_length_pos (v : Json) : 1 ≤ (dumpChars v).length := by
  rcases dumpChars_head v with ⟨c, cs, heq, -, -, -, -⟩
  rw [heq]
  simp

mutual

theorem needV_le_length : ∀ v : Json, needV v ≤ (dumpChars v).length
  | .null => by simp [needV, dumpChars, litNull]
  | .bool b => by cases b <;> simp [needV, dumpChars, litTrue, litFalse]
  | .num i => by have := dumpChars_length_pos (.num i); simpa [needV] using this
  | .str s => by simp [needV, dumpChars]
  | .arr xs => by
    cases xs with
    | nil => simp [needV, needL, dumpChars]
    | cons x xs =>
      have h1 := needV_le_length x
      have h2 := needL_le_length xs
      simp only [needV, needL, dumpChars, List.length_cons, List.length_append,
        List.length_singleton]
      omega
  | .obj kvs => by
    cases kvs with
    | nil => simp [needV, needM, dumpChars]
    | cons kv kvs =>
      rcases kv with ⟨k, v0⟩
      have h1 := needV_le_length v0
      have h2 := needM_le_length kvs
      simp only [needV, needM, dumpChars, dumpMember, List.length_cons, List.length_append,
        List.length_singleton]
      omega

theorem needL_le_length : ∀ xs : List Json, needL xs ≤ (dumpList xs).length + 1
  | [] => by simp [needL, dumpList]
  | x :: xs => by
    have h1 := needV_le_length x
    have h2 := needL_le_length xs
    simp only [needL, dumpList, List.length_cons, List.length_append]
    omega

theorem needM_le_length : ∀ kvs : List (String × Json),
    needM kvs ≤ (dumpMembers kvs).length + 1
  | [] => by simp [needM, dumpMembers]
  | (k, v0) :: kvs => by
    have h1 := needV_le_length v0
    have h2 := needM_le_length kvs
    simp only [needM, dumpMembers, dumpMember, List.length_cons, List.length_append]
    omega

end

/-- The serializer-parser roundtrip at the `loads`/`dumps` level: decoding the
serialization of a canonical JSON value succeeds and returns the value. -/
theorem loads_dumps {v : Json} (hc : canonV v = true) :
    Json.loads (Json.dumps v) = .ok v := by
  show loadsChars (dumpChars v) = .ok v
  have hrt := (parse_dump_mutual ((dumpChars v).length + 1)).1 v [] hc
    (le_trans (needV_le_length v) (Nat.le_succ _)) rfl
  rw [List.append_nil] at hrt
  rw [loadsChars, hrt]
  rfl

/-! ### The parser only produces canonical values -/

theorem canonL_of_forall : ∀ xs : List Json, (∀ x ∈ xs, canonV x = true) →
    canonL xs = true := by
  intro xs
  induction xs with
  | nil => intro; rfl
  | cons x xs ih =>
    intro h
    rw [canonL, Bool.and_eq_true]
    exact ⟨h x (List.mem_cons_self _ _), ih (fun y hy => h y (List.mem_cons_of_mem _ hy))⟩

theorem forall_of_canonL : ∀ xs : List Json, canonL xs = true →
    ∀ x ∈ xs, canonV x = true := by
  intro xs
  induction xs with
  | nil => intro _ x hx; cases hx
  | cons y xs ih =>
    intro h x hx
    rw [canonL, Bool.and_eq_true] at h
    rcases List.mem_cons.mp hx with rfl | hx2
    · exact h.1
    · exact ih h.2 x hx2

theorem canonM_of_forall : ∀ kvs : List (String × Json),
    (∀ kv ∈ kvs, canonV kv.2 = true) → canonM kvs = true := by
  intro kvs
  induction kvs with
  | nil => intro; rfl
  | cons kv kvs ih =>
    intro h
    rcases kv with ⟨k, v⟩
    rw [canonM, Bool.and_eq_true]
    exact ⟨h (k, v) (List.mem_cons_self _ _), ih (fun y hy => h y (List.mem_cons_of_mem _ hy))⟩

theorem forall_of_canonM : ∀ kvs : List (String × Json), canonM kvs = true →
    ∀ kv ∈ kvs, canonV kv.2 = true := by
  intro kvs
  induction kvs with
  | nil => intro _ kv hkv; cases hkv
  | cons kv0 kvs ih =>
    intro h kv hkv
    rcases kv0 with ⟨k, v⟩
    rw [canonM, Bool.and_eq_true] at h
    rcases List.mem_cons.mp hkv with rfl | hkv2
    · exact h.1
    · exact ih h.2 kv hkv2

theorem objInsert_mem {acc : List (String × Json)} {k : String} {v : Json}
    {kv : String × Json} (h : kv ∈ objInsert acc k v) : kv ∈ acc ∨ kv = (k, v) := by
  rw [objInsert] at h
  split at h
  · rcases List.mem_map.mp h with ⟨kv0, hkv0, heq⟩
    by_cases hk : kv0.1 == k
    · rw [if_pos hk] at heq
      exact Or.inr heq.symm
    · rw [if_neg hk] at heq
      exact Or.inl (heq ▸ hkv0)
  · rcases List.mem_append.mp h with hm | hm
    · exact Or.inl hm
    · exact Or.inr (List.mem_singleton.mp hm)

theorem objInsert_keys_nodup {acc : List (String × Json)} {k : String} {v : Json}
    (hnd : (acc.map Prod.fst).Nodup) :
    ((objInsert acc k v).map Prod.fst).Nodup := by
  rw [objInsert]
  split
  · have hmap : ∀ l : List (String × Json),
        (l.map (fun kv => if kv.1 == k then (k, v) else kv)).map Prod.fst
          = l.map Prod.fst := by
      intro l
      induction l with
      | nil => rfl
      | cons kv0 l ih =>
        simp only [List.map_cons, ih]
        congr 1
        by_cases hk : kv0.1 == k
        · rw [if_pos hk]
          exact (beq_iff_eq.mp hk).symm
        · rw [if_neg hk]
    rw [hmap]
    exact hnd
  · rename_i hany
    rw [List.map_append]
    rw [List.nodup_append]
    refine ⟨hnd, by simp, ?_⟩
    intro a ha hb
    simp only [List.map_cons, List.map_nil, List.mem_singleton] at hb
    subst hb
    rw [Bool.not_eq_true] at hany
    exact (any_key_eq_false_iff acc _).mp hany ha

theorem parseNumber_canon {s : List Char} {v : Json} {r : List Char}
    (h : parseNumber s = .ok (v, r)) : canonV v = true := by
  rw [parseNumber.eq_def] at h
  split at h
  · cases h
  · split_ifs at h
    · split at h
      · cases h
      · split_ifs at h
        injection h with h1
        injection h1 with h2 h3
        rw [← h2]
        rfl
    · split at h
      · cases h
      · split_ifs at h
        injection h with h1
        injection h1 with h2 h3
        rw [← h2]
        rfl

/-- Values produced by the fuel-indexed parser are canonical: object members
are accumulated with the Python `dict` assignment, so keys stay distinct. -/
theorem parse_canon_mutual : ∀ fuel : Nat,
    (∀ s v r, parseValue fuel s = .ok (v, r) → canonV v = true) ∧
    (∀ s xs r, parseArrayRest fuel s = .ok (xs, r) →
      ∀ x ∈ xs, canonV x = true) ∧
    (∀ acc s kvs r, (∀ kv ∈ acc, canonV kv.2 = true) → (acc.map Prod.fst).Nodup →
      parseMembersRest fuel acc s = .ok (kvs, r) →
      (∀ kv ∈ kvs, canonV kv.2 = true) ∧ (kvs.map Prod.fst).Nodup) := by
  intro fuel
  induction fuel with
  | zero =>
    refine ⟨?_, ?_, ?_⟩
    · intro s v r h; simp only [parseValue] at h; cases h
    · intro s xs r h; simp only [parseArrayRest] at h; cases h
    · intro acc s kvs r _ _ h; simp only [parseMembersRest] at h; cases h
  | succ n ih =>
    rcases ih with ⟨ihV, ihL, ihM⟩
    refine ⟨?_, ?_, ?_⟩
    · intro s v r h
      simp only [parseValue] at h
      split at h
      · cases h
      · split_ifs at h
        · -- null
          split at h
          · injection h with h1
            injection h1 with h2 h3
            rw [← h2]
            rfl
          · cases h
        · -- true
          split at h
          · injection h with h1
            injection h1 with h2 h3
            rw [← h2]
            rfl
          · cases h
        · -- false
          split at h
          · injection h with h1
            injection h1 with h2 h3
            rw [← h2]
            rfl
          · cases h
        · -- string
          split at h
          · injection h with h1
            injection h1 with h2 h3
            rw [← h2]
            rfl
          · cases h
        · -- array
          split at h
          · cases h
          · split_ifs at h
            · injection h with h1
              injection h1 with h2 h3
              rw [← h2]
              rfl
            · rename_i c1 cs1 hc1
              split at h
              · cases h
              · rename_i pv1 v1 r1 heq1
                split at h
                · cases h
                · rename_i pl1 vs1 r2 heq2
                  injection h with h1
                  injection h1 with h2 h3
                  rw [← h2]
                  show canonV (.arr (v1 :: vs1)) = true
                  rw [canonV]
                  refine canonL_of_forall _ (fun x hx => ?_)
                  rcases List.mem_cons.mp hx with rfl | hx2
                  · exact ihV _ _ _ heq1
                  · exact ihL _ _ _ heq2 x hx2
        · -- object
          split at h
          · cases h
          · split_ifs at h
            · injection h with h1
              injection h1 with h2 h3
              rw [← h2]
              rfl
            · split at h
              · cases h
              · rename_i ps1 key r1 heqkey
                split at h
                · cases h
                · split_ifs at h
                  · split at h
                    · cases h
                    · rename_i pv1 v1 r3 heqv
                      split at h
                      · cases h
                      · rename_i pm1 kvs1 r4 heqm
                        injection h with h1
                        injection h1 with h2 h3
                        rw [← h2]
                        show canonV (.obj kvs1) = true
                        rw [show objInsert [] (String.mk key) v1
                          = [(String.mk key, v1)] from rfl] at heqm
                        have hres := ihM [(String.mk key, v1)] _ kvs1 r4
                          (by
                            intro kv hkv
                            rw [List.mem_singleton] at hkv
                            rw [hkv]
                            exact ihV _ _ _ heqv)
                          (by simp) heqm
                        rw [canonV, Bool.and_eq_true]
                        exact ⟨(keysNodupB_iff _).mpr hres.2, canonM_of_forall _ hres.1⟩
        · -- number
          exact parseNumber_canon h
    · intro s xs r h
      simp only [parseArrayRest] at h
      split at h
      · cases h
      · split_ifs at h
        · injection h with h1
          injection h1 with h2 h3
          rw [← h2]
          intro x hx
          cases hx
        · split at h
          · cases h
          · rename_i pv1 v1 r1 heq1
            split at h
            · cases h
            · rename_i pl1 vs1 r2 heq2
              injection h with h1
              injection h1 with h2 h3
              rw [← h2]
              intro x hx
              rcases List.mem_cons.mp hx with rfl | hx2
              · exact ihV _ _ _ heq1
              · exact ihL _ _ _ heq2 x hx2
    · intro acc s kvs r hacc hnd h
      simp only [parseMembersRest] at h
      split at h
      · cases h
      · split_ifs at h
        · injection h with h1
          injection h1 with h2 h3
          rw [← h2]
          exact ⟨hacc, hnd⟩
        · split at h
          · cases h
          · split_ifs at h
            · split at h
              · cases h
              · rename_i ps1 key r1 heqkey
                split at h
                · cases h
                · split_ifs at h
                  · split at h
                    · cases h
                    · rename_i pv1 v1 r3 heqv
                      refine ihM (objInsert acc (String.mk key) v1) _ kvs r ?_ ?_ h
                      · intro kv hkv
                        rcases objInsert_mem hkv with hm | hm
                        · exact hacc kv hm
                        · rw [hm]
                          exact ihV _ _ _ heqv
                      · exact objInsert_keys_nodup hnd

/-- Everything `loadsChars` returns is canonical. -/
theorem loadsChars_canon {s : List Char} {v : Json} (h : loadsChars s = .ok v) :
    canonV v = true := by
  rw [loadsChars] at h
  split at h
  · cases h
  · rename_i pv v1 rest heq
    split at h
    · injection h with h1
      rw [← h1]
      exact (parse_canon_mutual _).1 _ _ _ heq
    · cases h

/-- A successful `parse_text` result is canonical, and always an object whose
first member is the `tags` string. -/
theorem parse_text_canon_shape {text : String} {d : Json}
    (h : parse_text text = .ok d) :
    canonV d = true ∧ ∃ t rest0, d = Json.obj (("tags", Json.str t) :: rest0) := by
  simp only [parse_text] at h
  split at h
  · cases h
  · rename_i tools heqload
    split at h
    · cases h
    · rename_i nn heqlen
      split_ifs at h
      · injection h with h1
        rw [← h1]
        exact ⟨rfl, _, _, rfl⟩
      · split at h
        · cases h
        · rename_i t0 heqidx
          injection h with h1
          rw [← h1]
          have hct : canonV tools = true := loadsChars_canon heqload
          have ht0 : canonV t0 = true := by
            cases tools with
            | null => simp [pyIndexZero] at heqidx
            | bool b => simp [pyIndexZero] at heqidx
            | num i => simp [pyIndexZero] at heqidx
            | str s0 =>
              rw [pyIndexZero] at heqidx
              split at heqidx
              · cases heqidx
              · injection heqidx with h2
                rw [← h2]
                rfl
            | arr xs =>
              cases xs with
              | nil => simp [pyIndexZero] at heqidx
              | cons x xs =>
                rw [pyIndexZero] at heqidx
                injection heqidx with h2
                rw [← h2]
                rw [canonV] at hct
                exact forall_of_canonL _ hct x (List.mem_cons_self _ _)
            | obj kvs => simp [pyIndexZero] at heqidx
          refine ⟨?_, _, _, rfl⟩
          show canonV (.obj [("tags", _), ("function_call", t0), ("content", _)]) = true
          rw [canonV, Bool.and_eq_true]
          refine ⟨rfl, ?_⟩
          simp [canonM, canonV, ht0]

/-! ### Finalization and detection lemmas -/

/-- The `function_call` member, when present, holds a JSON object (a Python
dict), so the `function_data.get(...)` calls cannot raise `AttributeError`. -/
def fcShapeOk (d : Json) : Bool :=
  match pyContains d "function_call" with
  | .ok true =>
    match pyGetItem d "function_call" with
    | .ok (.obj _) => true
    | _ => false
  | .ok false => true
  | .error _ => false

theorem finalizeIntent_store {c : Cache} {cacheKey : String} {now : Nat} {intentS : String}
    {d : Json} (hload : Json.loads intentS = .ok d) (hshape : fcShapeOk d = true) :
    finalizeIntent c cacheKey now intentS =
      (.ok intentS, cacheSet c cacheKey ⟨intentS, now⟩) := by
  rw [finalizeIntent, hload]
  simp only []
  rcases hpc : pyContains d "function_call" with e | b
  · rw [fcShapeOk, hpc] at hshape
    cases hshape
  · cases b with
    | false => rfl
    | true =>
      rw [fcShapeOk, hpc] at hshape
      rcases hgi : pyGetItem d "function_call" with e | fd
      · rw [hgi] at hshape
        cases hshape
      · rw [hgi] at hshape
        cases fd with
        | obj kvs => rfl
        | null => cases hshape
        | bool b2 => cases hshape
        | num i => cases hshape
        | str s => cases hshape
        | arr xs => cases hshape

theorem finalizeIntent_fallback {c : Cache} {cacheKey : String} {now : Nat}
    {intentS : String} {e : String} (hload : Json.loads intentS = .error e) :
    finalizeIntent c cacheKey now intentS = (.ok fallbackIntent, c) := by
  rw [finalizeIntent, hload]

theorem detect_intent_none (md5hex : String → String) (now : Nat) (conn : Conn)
    (c : Cache) (text : String) :
    detect_intent md5hex now none conn c text =
      ⟨.error (.valueError "LLM provider not set"), c, 0⟩ := rfl

theorem detect_intent_hit {md5hex : String → String} {now : Nat}
    {f : String → String → String} {conn : Conn} {c : Cache} {text : String}
    {kv : String × CacheEntry}
    (hfind : c.find? (fun kv => kv.1 == md5hex text) = some kv) :
    (now - kv.2.timestamp ≤ cache_expiry →
      detect_intent md5hex now (some f) conn c text = ⟨.ok kv.2.intent, c, 0⟩) ∧
    (now - kv.2.timestamp > cache_expiry →
      detect_intent md5hex now (some f) conn c text =
        detectMiss md5hex now f conn c text) := by
  constructor
  · intro hage
    simp only [detect_intent]
    rw [hfind]
    simp only [if_pos hage]
  · intro hage
    simp only [detect_intent]
    rw [hfind]
    simp only [if_neg (by omega : ¬ now - kv.2.timestamp ≤ cache_expiry)]

theorem detect_intent_miss {md5hex : String → String} {now : Nat}
    {f : String → String → String} {conn : Conn} {c : Cache} {text : String}
    (hmiss : c.find? (fun kv => kv.1 == md5hex text) = none ∨
      ∃ kv, c.find? (fun kv => kv.1 == md5hex text) = some kv ∧
        now - kv.2.timestamp > cache_expiry) :
    detect_intent md5hex now (some f) conn c text =
      detectMiss md5hex now f conn c text := by
  rcases hmiss with hnone | ⟨kv, hfind, hstale⟩
  · simp only [detect_intent]
    rw [hnone]
  · exact (detect_intent_hit hfind).2 hstale

theorem detectMiss_parse_error {md5hex : String → String} {now : Nat}
    {f : String → String → String} {conn : Conn} {c : Cache} {text : String}
    {e : PyError}
    (hparse : parse_text (String.mk (pyStrip
      (f (systemPrompt (Json.dumps (.arr conn.functions))) text).data)) = .error e) :
    detectMiss md5hex now f conn c text = ⟨.error e, clean_cache now c, 1⟩ := by
  simp only [detectMiss]
  rw [hparse]

theorem detectMiss_parse_ok {md5hex : String → String} {now : Nat}
    {f : String → String → String} {conn : Conn} {c : Cache} {text : String}
    {d : Json}
    (hparse : parse_text (String.mk (pyStrip
      (f (systemPrompt (Json.dumps (.arr conn.functions))) text).data)) = .ok d) :
    detectMiss md5hex now f conn c text =
      ⟨(finalizeIntent (clean_cache now c) (md5hex text) now (Json.dumps d)).1,
        (finalizeIntent (clean_cache now c) (md5hex text) now (Json.dumps d)).2, 1⟩ := by
  simp only [detectMiss]
  rw [hparse]

/-- Whatever branch `finalizeIntent` takes, every cache entry after it was
already present or is the freshly stamped insertion. -/
theorem finalizeIntent_cache_mem {c : Cache} {k : String} {now : Nat} {s : String}
    {kv : String × CacheEntry} (h : kv ∈ (finalizeIntent c k now s).2) :
    kv ∈ c ∨ kv = (k, ⟨s, now⟩) := by
  rw [finalizeIntent] at h
  split at h
  · exact Or.inl h
  · split at h
    · exact Or.inl h
    · split at h
      · exact Or.inl h
      · split at h
        · exact Or.inl h
        · exact mem_cacheSet h
    · exact mem_cacheSet h

/-! ### Claims -/

/-- C1: for every input text whose cache key is present with age at most
`cache_expiry` (600 s), `detect_intent` returns the cached intent string
unchanged, leaves the cache untouched and performs zero
`response_no_stream` invocations; an entry whose age exceeds 600 s is
treated as a miss (the call proceeds exactly as the miss path
`detectMiss`). -/
theorem claim_C1_cache_hit (md5hex : String → String) (now : Nat)
    (f : String → String → String) (conn : Conn) (c : Cache) (text : String)
    (kv : String × CacheEntry)
    (hfind : c.find? (fun kv => kv.1 == md5hex text) = some kv) :
    (now - kv.2.timestamp ≤ cache_expiry →
      detect_intent md5hex now (some f) conn c text = ⟨.ok kv.2.intent, c, 0⟩) ∧
    (now - kv.2.timestamp > cache_expiry →
      detect_intent md5hex now (some f) conn c text =
        detectMiss md5hex now f conn c text) :=
  detect_intent_hit hfind

/-- Witness for C1 at a concrete fresh cache entry. -/
theorem claim_C1_witness :
    detect_intent (fun _ => "k") 10 (some (fun _ _ => "")) ⟨[], []⟩
      [("k", ⟨"cached", 5⟩)] "hi" = ⟨.ok "cached", [("k", ⟨"cached", 5⟩)], 0⟩ :=
  (claim_C1_cache_hit (fun _ => "k") 10 (fun _ _ => "") ⟨[], []⟩
    [("k", ⟨"cached", 5⟩)] "hi" ("k", ⟨"cached", 5⟩) rfl).1 (by decide)

/-- C2: when the `<tool_call>` region holds a JSON array, `parse_text`
returns a dict without a `function_call` member if the array is empty and
with `function_call` equal to the first element otherwise; and the two
concrete examples of the claim evaluate as stated. -/
theorem claim_C2_parse_text :
    (∀ (text : String) (xs : List Json),
      loadsChars (pyStrip (tagGroup toolCallOpen toolCallClose text.data)) =
        .ok (.arr xs) →
      (xs = [] → parse_text text = .ok (.obj
        [("tags", .str (String.mk (pyStrip (tagGroup tagsOpen tagsClose text.data)))),
         ("content",
          .str (String.mk (pyStrip (tagGroup contentOpen contentClose text.data))))])) ∧
      (∀ t ts, xs = t :: ts → parse_text text = .ok (.obj
        [("tags", .str (String.mk (pyStrip (tagGroup tagsOpen tagsClose text.data)))),
         ("function_call", t),
         ("content",
          .str (String.mk (pyStrip (tagGroup contentOpen contentClose text.data))))]))) ∧
    parse_text "<tags>music</tags><tool_call>[]</tool_call><content>hi</content>" =
      .ok (.obj [("tags", .str "music"), ("content", .str "hi")]) ∧
    parse_text "<tool_call>[\x7b\"name\":\"play\",\"arguments\":\x7b\"song\":\"x\"\x7d\x7d]</tool_call>" =
      .ok (.obj [("tags", .str ""),
        ("function_call", .obj [("name", .str "play"),
          ("arguments", .obj [("song", .str "x")])]),
        ("content", .str "")]) := by
  refine ⟨?_, rfl, rfl⟩
  intro text xs h
  constructor
  · intro hxs
    subst hxs
    simp only [parse_text]
    rw [h]
    rfl
  · intro t ts hxs
    subst hxs
    simp only [parse_text]
    rw [h]
    rfl

/-- Witness for C2, applying the general part at the empty-array example. -/
theorem claim_C2_witness :
    parse_text "<tool_call>[]</tool_call>" = .ok (.obj
      [("tags", .str (String.mk (pyStrip
        (tagGroup tagsOpen tagsClose "<tool_call>[]</tool_call>".data)))),
       ("content", .str (String.mk (pyStrip
        (tagGroup contentOpen contentClose "<tool_call>[]</tool_call>".data))))]) :=
  ((claim_C2_parse_text.1 "<tool_call>[]</tool_call>" [] rfl).1) rfl

/-- C3: if decoding the final serialized intent string fails, the
`try`-block tail of `detect_intent` (`finalizeIntent`) returns exactly the
constant fallback literal and leaves the cache it was given unchanged (in
particular the fallback is never inserted). -/
theorem claim_C3_fallback (c : Cache) (cacheKey : String) (now : Nat)
    (intentS : String) (e : String) (h : Json.loads intentS = .error e) :
    finalizeIntent c cacheKey now intentS = (.ok fallbackIntent, c) ∧
    fallbackIntent = "\x7b\"intent\": \"继续聊天\"\x7d" :=
  ⟨finalizeIntent_fallback h, rfl⟩

/-- Witness for C3 at a concrete undecodable string. -/
theorem claim_C3_witness :
    finalizeIntent [] "k" 0 "x" = (.ok fallbackIntent, []) ∧
    fallbackIntent = "\x7b\"intent\": \"继续聊天\"\x7d" :=
  claim_C3_fallback [] "k" 0 "x" "Expecting value" rfl

/-- C4: `clean_cache` keeps only entries whose age is at most 600 s; if more
than 100 entries survive the expiry sweep it deletes oldest-timestamp entries
until exactly 100 remain (every evicted survivor is no newer than every kept
one); consequently the cache holds at most 100 entries afterwards. -/
theorem claim_C4_clean_cache (now : Nat) (c : Cache) (hwf : CacheWF c) :
    (∀ kv ∈ clean_cache now c, kv ∈ c ∧ now - kv.2.timestamp ≤ cache_expiry) ∧
    (clean_cache now c).length ≤ cache_max_size ∧
    ((c.filter fun kv => ! decide (now - kv.2.timestamp > cache_expiry)).length >
        cache_max_size →
      (clean_cache now c).length = cache_max_size) ∧
    (∀ kv ∈ c.filter (fun kv => ! decide (now - kv.2.timestamp > cache_expiry)),
      kv ∉ clean_cache now c →
      ∀ kv2 ∈ clean_cache now c, kv.2.timestamp ≤ kv2.2.timestamp) :=
  ⟨fun _ h => mem_clean_cache h, (clean_cache_evict_spec now c hwf).1,
    (clean_cache_evict_spec now c hwf).2.1, (clean_cache_evict_spec now c hwf).2.2⟩

/-- Witness for C4 on a concrete two-entry cache with one expired entry. -/
theorem claim_C4_witness :
    (∀ kv ∈ clean_cache 700 [("a", ⟨"x", 0⟩), ("b", ⟨"y", 50⟩)],
      kv ∈ [("a", (⟨"x", 0⟩ : CacheEntry)), ("b", ⟨"y", 50⟩)] ∧
      700 - kv.2.timestamp ≤ cache_expiry) ∧
    (clean_cache 700 [("a", ⟨"x", 0⟩), ("b", ⟨"y", 50⟩)]).length ≤ cache_max_size ∧
    (([("a", (⟨"x", 0⟩ : CacheEntry)), ("b", ⟨"y", 50⟩)].filter fun kv =>
        ! decide (700 - kv.2.timestamp > cache_expiry)).length > cache_max_size →
      (clean_cache 700 [("a", ⟨"x", 0⟩), ("b", ⟨"y", 50⟩)]).length = cache_max_size) ∧
    (∀ kv ∈ [("a", (⟨"x", 0⟩ : CacheEntry)), ("b", ⟨"y", 50⟩)].filter (fun kv =>
        ! decide (700 - kv.2.timestamp > cache_expiry)),
      kv ∉ clean_cache 700 [("a", ⟨"x", 0⟩), ("b", ⟨"y", 50⟩)] →
      ∀ kv2 ∈ clean_cache 700 [("a", ⟨"x", 0⟩), ("b", ⟨"y", 50⟩)],
        kv.2.timestamp ≤ kv2.2.timestamp) :=
  claim_C4_clean_cache 700 [("a", ⟨"x", 0⟩), ("b", ⟨"y", 50⟩)]
    (by unfold CacheWF; decide)

/-- C5 as stated is false: a completed `detect_intent` call that returns via
the cache-hit path runs no cleanup, so an entry under another key whose age
exceeds 600 s survives the call.  Concretely: with entries `A` (age 1000)
and `B` (age 100), a hit on `B` returns normally and `A` remains. -/
theorem claim_C5_counterexample :
    detect_intent (fun _ => "B") 1000 (some (fun _ _ => "")) ⟨[], []⟩
      [("A", ⟨"ia", 0⟩), ("B", ⟨"ib", 900⟩)] "x" =
      ⟨.ok "ib", [("A", ⟨"ia", 0⟩), ("B", ⟨"ib", 900⟩)], 0⟩ ∧
    ("A", (⟨"ia", 0⟩ : CacheEntry)) ∈
      (detect_intent (fun _ => "B") 1000 (some (fun _ _ => "")) ⟨[], []⟩
        [("A", ⟨"ia", 0⟩), ("B", ⟨"ib", 900⟩)] "x").cache ∧
    1000 - (0 : Nat) > cache_expiry :=
  ⟨rfl, by decide, by decide⟩

/-- C5 (amended): after every `detect_intent` call that passes the cache-hit
check without returning — that is, takes the miss path because the key is
absent or its entry is older than 600 s — the resulting cache holds no entry
whose age exceeds 600 s; a call that returns from the cache leaves the cache
unchanged and may retain stale entries under other keys. -/
theorem claim_C5_amended (md5hex : String → String) (now : Nat)
    (f : String → String → String) (conn : Conn) (c : Cache) (text : String)
    (hmiss : c.find? (fun kv => kv.1 == md5hex text) = none ∨
      ∃ kv, c.find? (fun kv => kv.1 == md5hex text) = some kv ∧
        now - kv.2.timestamp > cache_expiry) :
    ∀ kv ∈ (detect_intent md5hex now (some f) conn c text).cache,
      now - kv.2.timestamp ≤ cache_expiry := by
  rw [detect_intent_miss hmiss]
  intro kv hkv
  rcases hp : parse_text (String.mk (pyStrip
      (f (systemPrompt (Json.dumps (.arr conn.functions))) text).data)) with e | d
  · rw [detectMiss_parse_error hp] at hkv
    exact (mem_clean_cache hkv).2
  · rw [detectMiss_parse_ok hp] at hkv
    rcases finalizeIntent_cache_mem hkv with hm | hm
    · exact (mem_clean_cache hm).2
    · rw [hm]
      simp

/-- Witness for the amended C5 on a concrete empty cache (a miss): the one
entry the call leaves behind has age at most the expiry. -/
theorem claim_C5_witness :
    50 - (("K", CacheEntry.mk "\x7b\"tags\": \"\", \"content\": \"\"\x7d" 50) :
      String × CacheEntry).2.timestamp ≤ cache_expiry :=
  claim_C5_amended (fun _ => "K") 50 (fun _ _ => "<tool_call>[]</tool_call>")
    ⟨[], []⟩ [] "hi" (Or.inl rfl)
    ("K", ⟨"\x7b\"tags\": \"\", \"content\": \"\"\x7d", 50⟩) (by decide)

/-- C6 as stated is false: when the decoded result carries a `function_call`
whose value is not a JSON object (here the number `5`), the final JSON
decoding succeeds, yet `function_data.get("name")` raises `AttributeError`
and nothing is stored in the cache. -/
theorem claim_C6_counterexample :
    parse_text "<tool_call>[5]</tool_call>" =
      .ok (.obj [("tags", .str ""), ("function_call", .num 5), ("content", .str "")]) ∧
    Json.loads (Json.dumps (.obj [("tags", .str ""), ("function_call", .num 5),
        ("content", .str "")])) =
      .ok (.obj [("tags", .str ""), ("function_call", .num 5), ("content", .str "")]) ∧
    detect_intent (fun _ => "K") 0 (some (fun _ _ => "<tool_call>[5]</tool_call>"))
      ⟨[], []⟩ [] "hi" =
      ⟨.error (.attributeError "object has no attribute get"), [], 1⟩ :=
  ⟨rfl, rfl, rfl⟩

/-- C6 (amended): on a cache miss, when parsing succeeds and the result
either has no `function_call` member or carries one whose value is a JSON
object (`fcShapeOk`), `detect_intent` stores the serialized intent under the
key with the current time — overwriting any entry for that key — and returns
it; if `function_call` holds a non-object value, the call raises
`AttributeError` and caches nothing (see the counterexample). -/
theorem claim_C6_amended (md5hex : String → String) (now : Nat)
    (f : String → String → String) (conn : Conn) (c : Cache) (text : String)
    (d : Json)
    (hmiss : c.find? (fun kv => kv.1 == md5hex text) = none ∨
      ∃ kv, c.find? (fun kv => kv.1 == md5hex text) = some kv ∧
        now - kv.2.timestamp > cache_expiry)
    (hparse : parse_text (String.mk (pyStrip
      (f (systemPrompt (Json.dumps (.arr conn.functions))) text).data)) = .ok d)
    (hshape : fcShapeOk d = true) :
    detect_intent md5hex now (some f) conn c text =
      ⟨.ok (Json.dumps d),
       cacheSet (clean_cache now c) (md5hex text) ⟨Json.dumps d, now⟩, 1⟩ ∧
    (cacheSet (clean_cache now c) (md5hex text) ⟨Json.dumps d, now⟩).find?
      (fun kv => kv.1 == md5hex text) = some (md5hex text, ⟨Json.dumps d, now⟩) := by
  have hload : Json.loads (Json.dumps d) = .ok d :=
    loads_dumps (parse_text_canon_shape hparse).1
  constructor
  · rw [detect_intent_miss hmiss, detectMiss_parse_ok hparse,
      finalizeIntent_store hload hshape]
  · exact find?_cacheSet _ _ _

/-- Witness for the amended C6 with a concrete object-valued function call. -/
theorem claim_C6_witness :
    detect_intent (fun _ => "K") 5
      (some (fun _ _ =>
        "<tool_call>[\x7b\"name\":\"play\",\"arguments\":\x7b\x7d\x7d]</tool_call>"))
      ⟨[], []⟩ [] "hi" =
      ⟨.ok (Json.dumps (.obj [("tags", .str ""),
          ("function_call", .obj [("name", .str "play"), ("arguments", .obj [])]),
          ("content", .str "")])),
       cacheSet (clean_cache 5 []) "K"
         ⟨Json.dumps (.obj [("tags", .str ""),
           ("function_call", .obj [("name", .str "play"), ("arguments", .obj [])]),
           ("content", .str "")]), 5⟩, 1⟩ ∧
    (cacheSet (clean_cache 5 []) "K"
        ⟨Json.dumps (.obj [("tags", .str ""),
          ("function_call", .obj [("name", .str "play"), ("arguments", .obj [])]),
          ("content", .str "")]), 5⟩).find? (fun kv => kv.1 == "K") =
      some ("K", ⟨Json.dumps (.obj [("tags", .str ""),
        ("function_call", .obj [("name", .str "play"), ("arguments", .obj [])]),
        ("content", .str "")]), 5⟩) :=
  claim_C6_amended (fun _ => "K") 5
    (fun _ _ =>
      "<tool_call>[\x7b\"name\":\"play\",\"arguments\":\x7b\x7d\x7d]</tool_call>")
    ⟨[], []⟩ [] "hi"
    (.obj [("tags", .str ""),
      ("function_call", .obj [("name", .str "play"), ("arguments", .obj [])]),
      ("content", .str "")])
    (Or.inl rfl) rfl rfl

/-- C7: with no LLM client configured, `detect_intent` raises
`ValueError("LLM provider not set")` — the configuration error of the spec —
before any cache lookup, mutation or LLM call: the cache is returned
unchanged and zero LLM invocations occur. -/
theorem claim_C7_no_llm (md5hex : String → String) (now : Nat) (conn : Conn)
    (c : Cache) (text : String) :
    detect_intent md5hex now none conn c text =
      ⟨.error (.valueError "LLM provider not set"), c, 0⟩ :=
  detect_intent_none md5hex now conn c text

/-- C8: on a miss (so the LLM is invoked), a `parse_text` failure — e.g.
malformed JSON in the `<tool_call>` region — propagates out of
`detect_intent` uncaught (it is not converted into the fallback intent), and
nothing is cached for the input: the cache is exactly the cleaned cache,
which holds no entry for the key. -/
theorem claim_C8_parse_error (md5hex : String → String) (now : Nat)
    (f : String → String → String) (conn : Conn) (c : Cache) (text : String)
    (e : PyError) (hwf : CacheWF c)
    (hmiss : c.find? (fun kv => kv.1 == md5hex text) = none ∨
      ∃ kv, c.find? (fun kv => kv.1 == md5hex text) = some kv ∧
        now - kv.2.timestamp > cache_expiry)
    (hparse : parse_text (String.mk (pyStrip
      (f (systemPrompt (Json.dumps (.arr conn.functions))) text).data)) = .error e) :
    detect_intent md5hex now (some f) conn c text =
      ⟨.error e, clean_cache now c, 1⟩ ∧
    (clean_cache now c).find? (fun kv => kv.1 == md5hex text) = none := by
  constructor
  · rw [detect_intent_miss hmiss, detectMiss_parse_error hparse]
  · exact clean_find_none now c (md5hex text) hwf hmiss

/-- Witness for C8: a reply with no `<tool_call>` region fails to parse and
the JSON decode error is raised unchanged. -/
theorem claim_C8_witness :
    detect_intent (fun _ => "K") 7 (some (fun _ _ => "junk")) ⟨[], []⟩ [] "hi" =
      ⟨.error (.jsonDecodeError "Expecting value"), clean_cache 7 [], 1⟩ ∧
    (clean_cache 7 []).find? (fun kv => kv.1 == "K") = none :=
  claim_C8_parse_error (fun _ => "K") 7 (fun _ _ => "junk") ⟨[], []⟩ [] "hi"
    (.jsonDecodeError "Expecting value") (by unfold CacheWF; decide)
    (Or.inl rfl) rfl

/-- C9: the fallback branch is unreachable — the string handed to the final
`json.loads` is `json.dumps` of the dict `parse_text` returned, decoding it
succeeds (recovering the same value), and in particular the returned string
is never the fallback literal. -/
theorem claim_C9_fallback_unreachable (text : String) (d : Json)
    (h : parse_text text = .ok d) :
    Json.loads (Json.dumps d) = .ok d ∧ Json.dumps d ≠ fallbackIntent := by
  rcases parse_text_canon_shape h with ⟨hcanon, t, rest0, hshape⟩
  refine ⟨loads_dumps hcanon, ?_⟩
  rw [hshape]
  intro hcontra
  have h3 := congrArg (fun s : String => s.data.take 3) hcontra
  simp only [] at h3
  have hL : (Json.dumps (.obj (("tags", .str t) :: rest0))).data.take 3 =
    ['\x7b', '"', 't'] := rfl
  have hR : fallbackIntent.data.take 3 = ['\x7b', '"', 'i'] := rfl
  rw [hL, hR] at h3
  exact absurd h3 (by decide)

/-- Witness for C9 at a concrete parse. -/
theorem claim_C9_witness :
    Json.loads (Json.dumps (.obj [("tags", .str ""), ("content", .str "")])) =
      .ok (.obj [("tags", .str ""), ("content", .str "")]) ∧
    Json.dumps (.obj [("tags", .str ""), ("content", .str "")]) ≠ fallbackIntent :=
  claim_C9_fallback_unreachable "<tool_call>[]</tool_call>"
    (.obj [("tags", .str ""), ("content", .str "")]) rfl

/-- C10: when the raw text has no `<tool_call>...</tool_call>` region, or the
region strips to the empty string, `parse_text` raises the JSON decode error
of decoding the empty string — there is no input on which it returns with the
tool-call segment absent. -/
theorem claim_C10_empty_toolcall (text : String)
    (h : extractTagged toolCallOpen toolCallClose text.data = none ∨
      pyStrip (tagGroup toolCallOpen toolCallClose text.data) = []) :
    parse_text text = .error (.jsonDecodeError "Expecting value") := by
  have hempty : pyStrip (tagGroup toolCallOpen toolCallClose text.data) = [] := by
    rcases h with h | h
    · rw [tagGroup, h]
      rfl
    · exact h
  simp only [parse_text]
  rw [hempty]
  rfl

/-- Witness for C10 on a text with no tool-call region at all. -/
theorem claim_C10_witness :
    parse_text "hello" = .error (.jsonDecodeError "Expecting value") :=
  claim_C10_empty_toolcall "hello" (Or.inl rfl)
